import Mathlib

/-!
Four-digit seven-segment clock / voltmeter firmware (`src/main.cpp`)

A shallow embedding of the firmware and a verification of its specification.

Modelling conventions.

* C++ `int` is a 32-bit two's-complement integer.  It is embedded as `Int`, and
  every `+` / `*` that could leave the 32-bit range is passed through `wrapInt`.
  `/` and `%` on `int` truncate toward zero: `Int.tdiv`, `Int.tmod`.
* `uint8_t` is embedded as `Nat`; conversions to `uint8_t` are `% 256`.
* A finite `float` (IEEE binary32) is embedded as the rational it denotes.  Every
  `float` multiplication is the exact product rounded to binary32 by `fl32`
  (round to nearest, ties to even, 24-bit significand, subnormals below
  `2 ^ (-126)`); comparisons are exact.  Infinities and NaN are outside the
  embedding: a product of magnitude `2 ^ 128` or more is not modelled.
* Writes to the output pins and calls of `ThisThread::sleep_for` are recorded,
  in program order, as a list of `Action`s.
* An array read outside the array bounds has no defined result: `none`.
-/

namespace Firmware

/-! ## Machine integers -/

/-- Two's-complement wrap of a mathematical integer into the 32-bit `int` range. -/
def wrapInt (x : Int) : Int := (x + 2147483648) % 4294967296 - 2147483648

/-- Membership in the range of a 32-bit `int`. -/
def inIntRange (x : Int) : Prop := -2147483648 ≤ x ∧ x ≤ 2147483647

instance (x : Int) : Decidable (inIntRange x) := by
  unfold inIntRange; infer_instance

/-! ## Binary32 arithmetic -/

/-- Rounding of a rational to the nearest integer, ties going to the even integer. -/
def roundNearestEven (y : ℚ) : Int :=
  if y - ⌊y⌋ < 1 / 2 then ⌊y⌋
  else if 1 / 2 < y - ⌊y⌋ then ⌊y⌋ + 1
  else if ⌊y⌋ % 2 = 0 then ⌊y⌋ else ⌊y⌋ + 1

/-- The exponent of the binade of `x` in binary32: `⌊log2 |x|⌋` for normal numbers, `-126`
for subnormal ones. -/
def binadeExp (x : ℚ) : Int := max (Int.log 2 |x|) (-126)

/-- The spacing of binary32 values in the binade of `x` (24-bit significand). -/
def ulp32 (x : ℚ) : ℚ := (2 : ℚ) ^ (binadeExp x - 23)

/-- Rounding of a rational to binary32: the nearest multiple of the spacing of its
binade, ties to the even significand. -/
def fl32 (x : ℚ) : ℚ := roundNearestEven (x / ulp32 x) * ulp32 x

/-- The `float` literal `3.3f` (lines 35 and 108): the binary32 value nearest to 3.3. -/
def voltageRef : ℚ := fl32 (33 / 10)

/-! ## Time keeping (`elapsedSeconds`, `elapsedMinutes`, `incrementTime`) -/

/-- The two `volatile int` globals `elapsedSeconds` and `elapsedMinutes`. -/
structure TimeState where
  elapsedSeconds : Int
  elapsedMinutes : Int
  deriving DecidableEq, Repr

/-- Initial values of the globals: `elapsedSeconds = 0`, `elapsedMinutes = 0`. -/
def bootTime : TimeState := { elapsedSeconds := 0, elapsedMinutes := 0 }

/-- The ticker callback `incrementTime` (lines 47-53):
`elapsedSeconds++; if (elapsedSeconds >= 60) { elapsedSeconds = 0;
 elapsedMinutes = (elapsedMinutes + 1) % 100; }`. -/
def incrementTime (t : TimeState) : TimeState :=
  let sec := wrapInt (t.elapsedSeconds + 1)
  if sec ≥ 60 then
    { elapsedSeconds := 0
      elapsedMinutes := Int.tmod (wrapInt (t.elapsedMinutes + 1)) 100 }
  else
    { elapsedSeconds := sec, elapsedMinutes := t.elapsedMinutes }

/-- The statement `elapsedSeconds = 0;` of the reset branch (line 102). -/
def clearSeconds (t : TimeState) : TimeState := { t with elapsedSeconds := 0 }

/-- The statement `elapsedMinutes = 0;` of the reset branch (line 103). -/
def clearMinutes (t : TimeState) : TimeState := { t with elapsedMinutes := 0 }

/-- The two writes of the reset branch of `main` (lines 102-103), in order. -/
def resetTime (t : TimeState) : TimeState := clearMinutes (clearSeconds t)

/-- Atomic events that write the time state: a ticker interrupt, or one of the two
separate stores of the reset branch (an interrupt may land between the two). -/
inductive TimeStep where
  | tick
  | clearSec
  | clearMin
  deriving DecidableEq, Repr

/-- Effect of one atomic event on the time state. -/
def TimeStep.apply : TimeStep → TimeState → TimeState
  | .tick, t => incrementTime t
  | .clearSec, t => clearSeconds t
  | .clearMin, t => clearMinutes t

/-- Run a finite sequence of atomic events, oldest first. -/
def runTime (steps : List TimeStep) (t : TimeState) : TimeState :=
  steps.foldl (fun acc st => st.apply acc) t

/-- The data-model invariant of the time state: `0 ≤ seconds < 60`, `0 ≤ minutes < 100`. -/
def TimeInv (t : TimeState) : Prop :=
  0 ≤ t.elapsedSeconds ∧ t.elapsedSeconds < 60 ∧ 0 ≤ t.elapsedMinutes ∧ t.elapsedMinutes < 100

instance (t : TimeState) : Decidable (TimeInv t) := by
  unfold TimeInv; infer_instance

/-- The state after `n` consecutive ticks. -/
def ticks : Nat → TimeState → TimeState
  | 0, t => t
  | n + 1, t => ticks n (incrementTime t)


/-! ## Display output (`segmentCodes`, `digitSelect`, `sendToRegister`,
`outputToDisplay`, `renderNumber`) -/

/-- The bit pattern of a 32-bit `int`, as a natural number below `2 ^ 32`. -/
def toU32 (x : Int) : Nat := (x % 4294967296).toNat

/-- The conversion `static_cast<uint8_t>(x)` of an `int`: reduction modulo 256. -/
def toU8 (x : Int) : Nat := (x % 256).toNat

/-- The table `segmentCodes` (lines 16-27): entry `d` is `static_cast<uint8_t>(~g)` for the
glyph code `g` of digit `d`; `~` is the bitwise complement of an `int`. -/
def segmentCodes : List Nat :=
  [ toU8 (~~~ (0x3F : Int)),
    toU8 (~~~ (0x06 : Int)),
    toU8 (~~~ (0x5B : Int)),
    toU8 (~~~ (0x4F : Int)),
    toU8 (~~~ (0x66 : Int)),
    toU8 (~~~ (0x6D : Int)),
    toU8 (~~~ (0x7D : Int)),
    toU8 (~~~ (0x07 : Int)),
    toU8 (~~~ (0x7F : Int)),
    toU8 (~~~ (0x6F : Int)) ]

/-- The table `digitSelect` (line 30). -/
def digitSelect : List Nat := [0x01, 0x02, 0x04, 0x08]

/-- The array read `segmentCodes[d]` with an `int` index: defined only inside the
ten-entry table. -/
def segmentAt (d : Int) : Option Nat :=
  if 0 ≤ d ∧ d < 10 then segmentCodes[d.toNat]? else none

/-- One observable action of the program on its environment. -/
inductive Action where
  /-- The assignment `latch = v`. -/
  | latch (v : Bool)
  /-- The assignment `clkPin = v`. -/
  | clkPin (v : Bool)
  /-- The assignment `data = v`. -/
  | data (v : Bool)
  /-- The call `ThisThread::sleep_for(n ms)`. -/
  | sleepMs (n : Nat)
  deriving DecidableEq, Repr

/-- The value `(val & (1 << bit)) ? 1 : 0` written to `data` (line 58). -/
def bitOf (val bit : Nat) : Bool := (val &&& (1 <<< bit)) != 0

/-- The loop of `sendToRegister` with `n` iterations left: it handles
`bit = n - 1, ..., 0`, each iteration writing `data`, then `clkPin = 1; clkPin = 0`. -/
def sendBits (val : Nat) : Nat → List Action
  | 0 => []
  | n + 1 => [.data (bitOf val n), .clkPin true, .clkPin false] ++ sendBits val n

/-- The function `sendToRegister` (lines 56-62): `for (int bit = 7; bit >= 0; bit--)`. -/
def sendToRegister (val : Nat) : List Action := sendBits val 8

/-- The function `outputToDisplay` (lines 65-70). -/
def outputToDisplay (segData digitEnable : Nat) : List Action :=
  [.latch false] ++ sendToRegister segData ++ sendToRegister digitEnable ++ [.latch true]

/-- The statement `pattern &= ~0x80` on a `uint8_t` (line 84): the operand is promoted to
`int`, and-ed with the `int` value `~0x80`, and converted back to `uint8_t`. -/
def clearDecimalBit (pattern : Nat) : Nat := (pattern &&& toU32 (~~~ (0x80 : Int))) % 256

/-- The four digits computed at lines 74-79, with the truncating `/` and `%` of C++. -/
def digitsOf (num : Int) : List Int :=
  [ Int.tmod (Int.tdiv num 1000) 10,
    Int.tmod (Int.tdiv num 100) 10,
    Int.tmod (Int.tdiv num 10) 10,
    Int.tmod num 10 ]

/-- The segment byte of loop iteration `i` (lines 82-85) for the digit `d`. -/
def patternAt (useDecimal : Bool) (decimalIndex : Int) (i : Nat) (d : Int) : Option Nat :=
  match segmentAt d with
  | none => none
  | some pattern =>
    if useDecimal && ((i : Int) == decimalIndex) then some (clearDecimalBit pattern)
    else some pattern

/-- The loop of `renderNumber` (lines 81-88) with `k` iterations left, at index `i`. -/
def renderLoop (digits : List Int) (useDecimal : Bool) (decimalIndex : Int) :
    Nat → Nat → Option (List Action)
  | 0, _ => some []
  | k + 1, i =>
    match digits[i]?, digitSelect[i]? with
    | some d, some sel =>
      match patternAt useDecimal decimalIndex i d with
      | none => none
      | some pattern =>
        match renderLoop digits useDecimal decimalIndex k (i + 1) with
        | none => none
        | some rest => some (outputToDisplay pattern sel ++ [.sleepMs 2] ++ rest)
    | _, _ => none

/-- The function `renderNumber` (lines 73-89): `for (int i = 0; i < 4; i++)`. -/
def renderNumber (num : Int) (useDecimal : Bool) (decimalIndex : Int) :
    Option (List Action) :=
  renderLoop (digitsOf num) useDecimal decimalIndex 4 0

/-! ## The display hardware as an observer of the action trace -/

/-- State of the output lines and of the 16-bit serial-in shift register behind them:
the levels last written to the three lines, the 16 bits shifted in so far, and every pair
(high byte, low byte) that a latch pulse has exposed on the register outputs. -/
structure Register where
  dataLine : Bool
  clkLine : Bool
  latchLine : Bool
  shift : Nat
  frames : List (Nat × Nat)
  deriving DecidableEq, Repr

/-- All lines low, nothing shifted in, nothing latched. -/
def Register.boot : Register :=
  { dataLine := false, clkLine := false, latchLine := false, shift := 0, frames := [] }

/-- Reaction of the register to one action: a rising edge of the clock line shifts the
level of the data line in at the low end; a rising edge of the latch line exposes the 16
bits as (high byte, low byte). -/
def Register.step (r : Register) : Action → Register
  | .data v => { r with dataLine := v }
  | .clkPin v =>
    if v && !r.clkLine then
      { r with clkLine := v, shift := (r.shift * 2 + (if r.dataLine then 1 else 0)) % 65536 }
    else { r with clkLine := v }
  | .latch v =>
    if v && !r.latchLine then
      { r with latchLine := v, frames := r.frames ++ [(r.shift / 256, r.shift % 256)] }
    else { r with latchLine := v }
  | .sleepMs _ => r

/-- Reaction of the register to a trace of actions. -/
def Register.run (r : Register) (trace : List Action) : Register :=
  trace.foldl Register.step r

/-- The (segment byte, enable byte) pairs latched by a trace, from the boot state. -/
def committed (trace : List Action) : List (Nat × Nat) :=
  (Register.boot.run trace).frames

/-- The levels of the data line at the rising clock edges of a trace, in order. -/
def sampledBits : Bool → Bool → List Action → List Bool
  | _, _, [] => []
  | _, c, .data v :: rest => sampledBits v c rest
  | d, c, .clkPin v :: rest =>
    if v && !c then d :: sampledBits d v rest else sampledBits d v rest
  | d, c, _ :: rest => sampledBits d c rest

/-- The digit whose glyph a segment byte shows: the index of the table entry that agrees
with the byte on the seven segment bits (bit 7, the decimal point, is ignored). -/
def glyphOf (pattern : Nat) : Option Nat :=
  (List.range 10).find? (fun d => segmentCodes[d]? == some (pattern ||| 0x80))

/-- Whether bit 7 (the decimal point, lit when the bit is 0) of a segment byte is set. -/
def dpBitSet (pattern : Nat) : Bool := pattern &&& 0x80 != 0

/-! ## Statement helpers for the display path -/

/-- Table entry of digit `d` as a total function (0 outside the table); it is used only to
state results about digits in `0..9`, where `segmentAt d = some (encode d)`. -/
def encode (d : Int) : Nat := (segmentAt d).getD 0

/-- The segment byte committed in iteration `i` when the table lookup yields `p`. -/
def overlay (useDecimal : Bool) (decimalIndex : Int) (i : Nat) (p : Nat) : Nat :=
  if useDecimal && ((i : Int) == decimalIndex) then clearDecimalBit p else p

/-- Numeric value of a line level. -/
def levelVal (b : Bool) : Nat := if b then 1 else 0

/-- Bits 7..0 of a byte, most significant first. -/
def bitsMsbFirst (val : Nat) : List Bool :=
  [val.testBit 7, val.testBit 6, val.testBit 5, val.testBit 4,
   val.testBit 3, val.testBit 2, val.testBit 1, val.testBit 0]

/-- Each bit of a sequence presented on the data line and followed by one clock pulse
(clock high, then clock low). -/
def pulses : List Bool → List Action
  | [] => []
  | b :: rest => .data b :: .clkPin true :: .clkPin false :: pulses rest

/-- The trace of four calls `outputToDisplay(p, digitSelect[i])`, `i = 0, 1, 2, 3`, each
followed by the 2 ms dwell. -/
def renderTrace (p0 p1 p2 p3 : Nat) : List Action :=
  outputToDisplay p0 0x01 ++ [.sleepMs 2] ++
    (outputToDisplay p1 0x02 ++ [.sleepMs 2] ++
    (outputToDisplay p2 0x04 ++ [.sleepMs 2] ++
    (outputToDisplay p3 0x08 ++ [.sleepMs 2] ++ [])))

/-! ## The main loop (`main`, lines 99-122) -/

/-- The globals of the program: the time state and the two `volatile float` extrema, each
float as the rational it denotes. -/
structure ProgState where
  time : TimeState
  lowestVoltage : ℚ
  highestVoltage : ℚ
  deriving DecidableEq

/-- Initial values of the globals (lines 33-36): `lowestVoltage = 3.3f`,
`highestVoltage = 0.0f`. -/
def ProgState.boot : ProgState :=
  { time := bootTime, lowestVoltage := voltageRef, highestVoltage := 0 }

/-- What one loop iteration reads from its environment: the levels of the two button
pins (pull-up: a pressed button reads low, `false`) and the `float` returned by
`analogInput.read()`. -/
structure Inputs where
  btnReset : Bool
  analog : ℚ
  btnVoltage : Bool
  deriving DecidableEq

/-- The conversion `static_cast<int>(x)` of a `float`: truncation toward zero, undefined
when the truncated value is not representable in `int`. -/
def floatToInt (x : ℚ) : Option Int :=
  let z : Int := if 0 ≤ x then ⌊x⌋ else ⌈x⌉
  if inIntRange z then some z else none

/-- The reset branch (lines 101-105): when `!btnReset`, both time fields are zeroed and the
loop sleeps 200 ms; the extrema are not touched. -/
def resetPhase (s : ProgState) (inp : Inputs) : ProgState × List Action :=
  if !inp.btnReset then ({ s with time := resetTime s.time }, [.sleepMs 200])
  else (s, [])

/-- Line 108: `currentVoltage = analogInput.read() * 3.3f`, a binary32 multiplication. -/
def currentVoltage (inp : Inputs) : ℚ := fl32 (inp.analog * voltageRef)

/-- Line 111: `if (currentVoltage < lowestVoltage) lowestVoltage = currentVoltage;`. -/
def updateLowest (s : ProgState) (v : ℚ) : ProgState :=
  if v < s.lowestVoltage then { s with lowestVoltage := v } else s

/-- Line 112: `if (currentVoltage > highestVoltage) highestVoltage = currentVoltage;`. -/
def updateHighest (s : ProgState) (v : ℚ) : ProgState :=
  if v > s.highestVoltage then { s with highestVoltage := v } else s

/-- Lines 111-112: the two conditional stores, in program order. -/
def updateExtrema (s : ProgState) (v : ℚ) : ProgState :=
  updateHighest (updateLowest s v) v

/-- Line 116: `voltageAsInt = static_cast<int>(currentVoltage * 100)`; the `int` 100 is
converted to `100.0f` exactly, the product is a binary32 multiplication, and the
conversion to `int` truncates. -/
def voltageAsInt (inp : Inputs) : Option Int :=
  floatToInt (fl32 (currentVoltage inp * 100))

/-- Line 119: `displayTime = elapsedMinutes * 100 + elapsedSeconds`. -/
def displayTime (t : TimeState) : Int :=
  wrapInt (wrapInt (t.elapsedMinutes * 100) + t.elapsedSeconds)

/-- The first argument of the call of `renderNumber` made by the display branch
(lines 115-121), from the state at that point of the iteration. -/
def displayValue (s : ProgState) (inp : Inputs) : Option Int :=
  if !inp.btnVoltage then voltageAsInt inp else some (displayTime s.time)

/-- The display branch (lines 115-121): `renderNumber(voltageAsInt, true, 1)` when
`!btnVoltage`, else `renderNumber(displayTime)` with the default arguments `false, -1`. -/
def displayPhase (s : ProgState) (inp : Inputs) : Option (List Action) :=
  if !inp.btnVoltage then
    match voltageAsInt inp with
    | none => none
    | some k => renderNumber k true 1
  else renderNumber (displayTime s.time) false (-1)

/-- One iteration of the `while (true)` loop with no interrupt inside it: the globals
after the iteration and the trace of actions (`none` when undefined behaviour occurs). -/
def loopIteration (s : ProgState) (inp : Inputs) : ProgState × Option (List Action) :=
  let r := resetPhase s inp
  let s2 := updateExtrema r.1 (currentVoltage inp)
  (s2, (displayPhase s2 inp).map (fun acts => r.2 ++ acts))

/-- The ticker interrupt acting on the globals: only the time state is written. -/
def tickProg (s : ProgState) : ProgState := { s with time := incrementTime s.time }

/-! ## The ticker interrupt interleaved with the main loop -/

/-- The order in which the two `volatile` operands of `elapsedMinutes * 100 + elapsedSeconds`
(line 119) are read; C++ leaves the order of the operands of `+` to the compiler. -/
inductive ReadOrder where
  | minutesFirst
  | secondsFirst
  deriving DecidableEq, Repr

/-- Where one ticker interrupt lands relative to the two reads of line 119. -/
inductive TickAt where
  | beforeReads
  | betweenReads
  | afterReads
  deriving DecidableEq, Repr

/-- The value of `elapsedMinutes * 100 + elapsedSeconds` when the first read happens in the
time state `t0` and the second read in the time state `t1`. -/
def clockReadAt (order : ReadOrder) (t0 t1 : TimeState) : Int :=
  match order with
  | .minutesFirst => wrapInt (wrapInt (t0.elapsedMinutes * 100) + t1.elapsedSeconds)
  | .secondsFirst => wrapInt (wrapInt (t1.elapsedMinutes * 100) + t0.elapsedSeconds)

/-- The value computed at line 119 from the time state `t` when one call of
`incrementTime` lands at the given place. -/
def clockRead (order : ReadOrder) (pos : TickAt) (t : TimeState) : Int :=
  match pos with
  | .beforeReads => clockReadAt order (incrementTime t) (incrementTime t)
  | .betweenReads => clockReadAt order t (incrementTime t)
  | .afterReads => clockReadAt order t t

/-- The time state seen `c` ticks into the debounce delay of the reset branch (line 104),
when `a` ticks fired before the store `elapsedSeconds = 0` and `b` ticks between that store
and the store `elapsedMinutes = 0`. -/
def windowState (t : TimeState) (a b c : Nat) : TimeState :=
  ticks c (clearMinutes (ticks b (clearSeconds (ticks a t))))

/-- An event of the whole program: a ticker interrupt between two loop iterations, or one
loop iteration with the inputs it reads. -/
inductive ProgEvent where
  | tick
  | iteration (inp : Inputs)

/-- Effect of a program event on the globals. -/
def ProgEvent.apply : ProgEvent → ProgState → ProgState
  | .tick, s => tickProg s
  | .iteration inp, s => (loopIteration s inp).1

/-- The globals after a finite sequence of program events, oldest first. -/
def runProg (events : List ProgEvent) (s : ProgState) : ProgState :=
  events.foldl (fun acc e => e.apply acc) s

/-- The voltages sampled by the loop iterations of a sequence of events, oldest first. -/
def sampledVoltages : List ProgEvent → List ℚ
  | [] => []
  | .tick :: rest => sampledVoltages rest
  | .iteration inp :: rest => currentVoltage inp :: sampledVoltages rest

/-- The loop iterations that read the given normalized analog values, with neither button
pressed. -/
def readings (rs : List ℚ) : List ProgEvent :=
  rs.map (fun r => ProgEvent.iteration ⟨true, r, true⟩)

/-- The four (segment byte, enable byte) frames of the clock display `MMSS` for a time
state: plain table entries of `minutes/10`, `minutes%10`, `seconds/10`, `seconds%10`. -/
def clockFrames (t : TimeState) : List (Nat × Nat) :=
  [(encode (t.elapsedMinutes / 10), 0x01), (encode (t.elapsedMinutes % 10), 0x02),
   (encode (t.elapsedSeconds / 10), 0x04), (encode (t.elapsedSeconds % 10), 0x08)]

/-- The four frames of the voltmeter display `X.XX` for the scaled integer `k`: the table
entries of the decimal digits of `k`, the one at index 1 with the decimal-point bit cleared. -/
def voltFrames (k : Int) : List (Nat × Nat) :=
  [(encode (k / 1000 % 10), 0x01), (clearDecimalBit (encode (k / 100 % 10)), 0x02),
   (encode (k / 10 % 10), 0x04), (encode (k % 10), 0x08)]

/-! ## Lemmas on time keeping -/

theorem tmod_of_nonneg (a b : Int) (ha : 0 ≤ a) (hb : 0 ≤ b) : Int.tmod a b = a % b :=
  Int.tmod_eq_emod ha hb

theorem tdiv_of_nonneg (a b : Int) (ha : 0 ≤ a) (hb : 0 ≤ b) : Int.tdiv a b = a / b :=
  Int.tdiv_eq_ediv ha hb

theorem incrementTime_inv (t : TimeState) (h : TimeInv t) : TimeInv (incrementTime t) := by
  obtain ⟨h0, h1, h2, h3⟩ := h
  have hs : wrapInt (t.elapsedSeconds + 1) = t.elapsedSeconds + 1 := by
    unfold wrapInt; omega
  have hm : wrapInt (t.elapsedMinutes + 1) = t.elapsedMinutes + 1 := by
    unfold wrapInt; omega
  unfold incrementTime TimeInv
  simp only [hs, hm]
  split
  · rw [tmod_of_nonneg _ _ (by omega) (by omega)]
    refine ⟨?_, ?_, ?_, ?_⟩ <;> dsimp only <;> omega
  · refine ⟨?_, ?_, ?_, ?_⟩ <;> dsimp only <;> omega

theorem clearSeconds_inv (t : TimeState) (h : TimeInv t) : TimeInv (clearSeconds t) := by
  obtain ⟨_, _, h2, h3⟩ := h
  refine ⟨?_, ?_, h2, h3⟩ <;> dsimp only [clearSeconds] <;> omega

theorem clearMinutes_inv (t : TimeState) (h : TimeInv t) : TimeInv (clearMinutes t) := by
  obtain ⟨h0, h1, _, _⟩ := h
  refine ⟨h0, h1, ?_, ?_⟩ <;> dsimp only [clearMinutes] <;> omega

theorem resetTime_eq (t : TimeState) : resetTime t = bootTime := rfl

theorem step_inv (st : TimeStep) (t : TimeState) (h : TimeInv t) : TimeInv (st.apply t) := by
  cases st
  · exact incrementTime_inv t h
  · exact clearSeconds_inv t h
  · exact clearMinutes_inv t h

theorem runTime_inv (steps : List TimeStep) :
    ∀ t : TimeState, TimeInv t → TimeInv (runTime steps t) := by
  induction steps with
  | nil => intro t h; exact h
  | cons st rest ih =>
    intro t h
    exact ih (st.apply t) (step_inv st t h)

theorem ticks_succ (n : Nat) :
    ∀ t : TimeState, ticks (n + 1) t = incrementTime (ticks n t) := by
  induction n with
  | zero => intro t; rfl
  | succ k ih =>
    intro t
    show ticks (k + 1) (incrementTime t) = incrementTime (ticks k (incrementTime t))
    exact ih (incrementTime t)

theorem ticks_spec (n : Nat) :
    ticks n bootTime =
      { elapsedSeconds := ((n % 60 : Nat) : Int), elapsedMinutes := (((n / 60) % 100 : Nat) : Int) } := by
  induction n with
  | zero => rfl
  | succ k ih =>
    have hs : wrapInt (((k % 60 : Nat) : Int) + 1) = ((k % 60 : Nat) : Int) + 1 := by
      unfold wrapInt; omega
    have hm : wrapInt ((((k / 60) % 100 : Nat) : Int) + 1) = (((k / 60) % 100 : Nat) : Int) + 1 := by
      unfold wrapInt; omega
    rw [ticks_succ k bootTime, ih]
    unfold incrementTime
    simp only [hs, hm]
    split
    · rename_i hge
      rw [tmod_of_nonneg _ _ (by omega) (by omega)]
      rw [TimeState.mk.injEq]
      constructor <;> omega
    · rename_i hlt
      rw [TimeState.mk.injEq]
      constructor <;> omega


theorem incrementTime_step (t : TimeState) (h0 : 0 ≤ t.elapsedSeconds)
    (h1 : t.elapsedSeconds < 59) :
    incrementTime t =
      { elapsedSeconds := t.elapsedSeconds + 1, elapsedMinutes := t.elapsedMinutes } := by
  have hs : wrapInt (t.elapsedSeconds + 1) = t.elapsedSeconds + 1 := by
    unfold wrapInt; omega
  unfold incrementTime
  simp only [hs]
  rw [if_neg (by omega)]

theorem incrementTime_wrap (t : TimeState) (hs : t.elapsedSeconds = 59)
    (h0 : 0 ≤ t.elapsedMinutes) (h1 : t.elapsedMinutes < 100) :
    incrementTime t =
      { elapsedSeconds := 0, elapsedMinutes := (t.elapsedMinutes + 1) % 100 } := by
  have hw : wrapInt (t.elapsedSeconds + 1) = 60 := by
    rw [hs]; decide
  have hm : wrapInt (t.elapsedMinutes + 1) = t.elapsedMinutes + 1 := by
    unfold wrapInt; omega
  unfold incrementTime
  simp only [hw, hm]
  rw [if_pos (by decide), tmod_of_nonneg _ _ (by omega) (by decide)]

theorem ticks_small (n : Nat) :
    ∀ (sec m : Int), 0 ≤ sec → sec + n < 60 →
      ticks n { elapsedSeconds := sec, elapsedMinutes := m } =
        { elapsedSeconds := sec + n, elapsedMinutes := m } := by
  induction n with
  | zero =>
    intro sec m _ _
    show ({ elapsedSeconds := sec, elapsedMinutes := m } : TimeState) = _
    rw [TimeState.mk.injEq]
    exact ⟨by simp, rfl⟩
  | succ k ih =>
    intro sec m h0 h1
    have hk : sec + (k : Int) < 59 := by push_cast at h1; omega
    rw [ticks_succ k, ih sec m h0 (by omega),
      incrementTime_step _ (by show 0 ≤ sec + (k : Int); omega) hk]
    rw [TimeState.mk.injEq]
    exact ⟨by push_cast; omega, rfl⟩

/-! ## Lemmas on the display path -/

theorem segmentAt_digit (d : Int) (h0 : 0 ≤ d) (h1 : d < 10) :
    segmentAt d = some (encode d) := by
  interval_cases d <;> rfl

theorem encode_lt (d : Int) (h0 : 0 ≤ d) (h1 : d < 10) : encode d < 256 := by
  interval_cases d <;> decide

theorem encode_facts (d : Int) (h0 : 0 ≤ d) (h1 : d < 10) :
    glyphOf (encode d) = some d.toNat ∧ dpBitSet (encode d) = true ∧
    glyphOf (clearDecimalBit (encode d)) = some d.toNat ∧
    dpBitSet (clearDecimalBit (encode d)) = false ∧
    encode d ^^^ clearDecimalBit (encode d) = 0x80 := by
  interval_cases d <;> decide

theorem clearDecimalBit_lt (p : Nat) : clearDecimalBit p < 256 := by
  unfold clearDecimalBit; omega

theorem overlay_lt (ud : Bool) (di : Int) (i p : Nat) (h : p < 256) : overlay ud di i p < 256 := by
  unfold overlay
  split
  · exact clearDecimalBit_lt p
  · exact h

theorem patternAt_digit (ud : Bool) (di : Int) (i : Nat) (d : Int) (h0 : 0 ≤ d) (h1 : d < 10) :
    patternAt ud di i d = some (overlay ud di i (encode d)) := by
  unfold patternAt overlay
  rw [segmentAt_digit d h0 h1]
  dsimp only
  split <;> rfl

theorem renderLoop_digits (ud : Bool) (di : Int) (d0 d1 d2 d3 : Int)
    (h0 : 0 ≤ d0 ∧ d0 < 10) (h1 : 0 ≤ d1 ∧ d1 < 10) (h2 : 0 ≤ d2 ∧ d2 < 10)
    (h3 : 0 ≤ d3 ∧ d3 < 10) :
    renderLoop [d0, d1, d2, d3] ud di 4 0 =
      some (renderTrace (overlay ud di 0 (encode d0)) (overlay ud di 1 (encode d1))
        (overlay ud di 2 (encode d2)) (overlay ud di 3 (encode d3))) := by
  have e0 := patternAt_digit ud di 0 d0 h0.1 h0.2
  have e1 := patternAt_digit ud di 1 d1 h1.1 h1.2
  have e2 := patternAt_digit ud di 2 d2 h2.1 h2.2
  have e3 := patternAt_digit ud di 3 d3 h3.1 h3.2
  simp only [renderLoop, digitSelect, List.getElem?_cons_zero, List.getElem?_cons_succ,
    e0, e1, e2, e3, renderTrace]

theorem digitsOf_nonneg (v : Int) (h : 0 ≤ v) :
    digitsOf v = [v / 1000 % 10, v / 100 % 10, v / 10 % 10, v % 10] := by
  unfold digitsOf
  rw [tdiv_of_nonneg v 1000 h (by decide), tdiv_of_nonneg v 100 h (by decide),
    tdiv_of_nonneg v 10 h (by decide), tmod_of_nonneg v 10 h (by decide),
    tmod_of_nonneg (v / 1000) 10 (by omega) (by decide),
    tmod_of_nonneg (v / 100) 10 (by omega) (by decide),
    tmod_of_nonneg (v / 10) 10 (by omega) (by decide)]

theorem levelVal_le (b : Bool) : levelVal b ≤ 1 := by
  cases b <;> decide

set_option maxRecDepth 100000 in
theorem byte_bits : ∀ val < 256,
    128 * levelVal (bitOf val 7) + 64 * levelVal (bitOf val 6) +
    32 * levelVal (bitOf val 5) + 16 * levelVal (bitOf val 4) +
    8 * levelVal (bitOf val 3) + 4 * levelVal (bitOf val 2) +
    2 * levelVal (bitOf val 1) + levelVal (bitOf val 0) = val := by
  decide

theorem Register.run_append (r : Register) (a b : List Action) :
    r.run (a ++ b) = (r.run a).run b := by
  simp [Register.run, List.foldl_append]

theorem Register.run_sendToRegister (r : Register) (val : Nat) (hv : val < 256)
    (hc : r.clkLine = false) :
    r.run (sendToRegister val) =
      { r with dataLine := bitOf val 0, shift := (r.shift * 256 + val) % 65536 } := by
  have hb := byte_bits val hv
  obtain ⟨dl, cl, ll, sh, fr⟩ := r
  simp only at hc
  subst hc
  simp only [sendToRegister, sendBits, Register.run, List.foldl, List.cons_append,
    List.nil_append, Register.step, Bool.true_and, Bool.not_false, Bool.false_and,
    Bool.not_true, if_true, Bool.false_eq_true, if_false]
  rw [Register.mk.injEq]
  refine ⟨rfl, rfl, rfl, ?_, rfl⟩
  change ((((((((sh * 2 + levelVal (bitOf val 7)) % 65536 * 2 + levelVal (bitOf val 6)) % 65536
    * 2 + levelVal (bitOf val 5)) % 65536 * 2 + levelVal (bitOf val 4)) % 65536
    * 2 + levelVal (bitOf val 3)) % 65536 * 2 + levelVal (bitOf val 2)) % 65536
    * 2 + levelVal (bitOf val 1)) % 65536 * 2 + levelVal (bitOf val 0)) % 65536 = _
  have l7 := levelVal_le (bitOf val 7)
  have l6 := levelVal_le (bitOf val 6)
  have l5 := levelVal_le (bitOf val 5)
  have l4 := levelVal_le (bitOf val 4)
  have l3 := levelVal_le (bitOf val 3)
  have l2 := levelVal_le (bitOf val 2)
  have l1 := levelVal_le (bitOf val 1)
  have l0 := levelVal_le (bitOf val 0)
  generalize levelVal (bitOf val 7) = x7 at *
  generalize levelVal (bitOf val 6) = x6 at *
  generalize levelVal (bitOf val 5) = x5 at *
  generalize levelVal (bitOf val 4) = x4 at *
  generalize levelVal (bitOf val 3) = x3 at *
  generalize levelVal (bitOf val 2) = x2 at *
  generalize levelVal (bitOf val 1) = x1 at *
  generalize levelVal (bitOf val 0) = x0 at *
  omega

theorem Register.run_outputToDisplay (r : Register) (seg en : Nat) (hs : seg < 256)
    (he : en < 256) (hc : r.clkLine = false) :
    r.run (outputToDisplay seg en) =
      { dataLine := bitOf en 0, clkLine := false, latchLine := true,
        shift := seg * 256 + en, frames := r.frames ++ [(seg, en)] } := by
  obtain ⟨dl, cl, ll, sh, fr⟩ := r
  simp only at hc
  subst hc
  unfold outputToDisplay
  rw [Register.run_append, Register.run_append, Register.run_append]
  have h1 : Register.run ⟨dl, false, ll, sh, fr⟩ [.latch false] = ⟨dl, false, false, sh, fr⟩ := by
    simp [Register.run, Register.step]
  rw [h1, Register.run_sendToRegister _ seg hs rfl,
    Register.run_sendToRegister _ en he rfl]
  simp only [Register.run, List.foldl, Register.step, Bool.true_and, Bool.not_false, if_true]
  rw [Register.mk.injEq]
  refine ⟨rfl, rfl, rfl, ?_, ?_⟩
  · omega
  · congr 2
    rw [Prod.mk.injEq]
    constructor <;> omega

theorem Register.run_frame (r : Register) (p sel n : Nat) (rest : List Action)
    (hp : p < 256) (hsel : sel < 256) (hc : r.clkLine = false) :
    r.run (outputToDisplay p sel ++ [.sleepMs n] ++ rest) =
      Register.run
        { dataLine := bitOf sel 0, clkLine := false, latchLine := true,
          shift := p * 256 + sel, frames := r.frames ++ [(p, sel)] } rest := by
  rw [Register.run_append, Register.run_append, Register.run_outputToDisplay r p sel hp hsel hc]
  rfl

theorem Register.run_renderTrace (r : Register) (p0 p1 p2 p3 : Nat)
    (h0 : p0 < 256) (h1 : p1 < 256) (h2 : p2 < 256) (h3 : p3 < 256)
    (hc : r.clkLine = false) :
    (r.run (renderTrace p0 p1 p2 p3)).frames =
      r.frames ++ [(p0, 0x01), (p1, 0x02), (p2, 0x04), (p3, 0x08)] := by
  unfold renderTrace
  rw [Register.run_frame r p0 _ _ _ h0 (by decide) hc,
    Register.run_frame _ p1 _ _ _ h1 (by decide) rfl,
    Register.run_frame _ p2 _ _ _ h2 (by decide) rfl,
    Register.run_frame _ p3 _ _ _ h3 (by decide) rfl]
  simp [Register.run]

theorem committed_renderTrace (p0 p1 p2 p3 : Nat)
    (h0 : p0 < 256) (h1 : p1 < 256) (h2 : p2 < 256) (h3 : p3 < 256) :
    committed (renderTrace p0 p1 p2 p3) = [(p0, 0x01), (p1, 0x02), (p2, 0x04), (p3, 0x08)] := by
  unfold committed
  rw [Register.run_renderTrace Register.boot p0 p1 p2 p3 h0 h1 h2 h3 rfl]
  rfl

theorem digit_range (v : Int) :
    (0 ≤ v / 1000 % 10 ∧ v / 1000 % 10 < 10) ∧ (0 ≤ v / 100 % 10 ∧ v / 100 % 10 < 10) ∧
    (0 ≤ v / 10 % 10 ∧ v / 10 % 10 < 10) ∧ (0 ≤ v % 10 ∧ v % 10 < 10) := by
  omega

theorem renderNumber_nonneg (v : Int) (ud : Bool) (di : Int) (h : 0 ≤ v) :
    renderNumber v ud di =
      some (renderTrace (overlay ud di 0 (encode (v / 1000 % 10)))
        (overlay ud di 1 (encode (v / 100 % 10))) (overlay ud di 2 (encode (v / 10 % 10)))
        (overlay ud di 3 (encode (v % 10)))) := by
  obtain ⟨r0, r1, r2, r3⟩ := digit_range v
  unfold renderNumber
  rw [digitsOf_nonneg v h]
  exact renderLoop_digits ud di _ _ _ _ r0 r1 r2 r3

theorem glyphOf_overlay (ud : Bool) (di : Int) (i : Nat) (d : Int) (h0 : 0 ≤ d) (h1 : d < 10) :
    glyphOf (overlay ud di i (encode d)) = some d.toNat := by
  obtain ⟨g1, _, g2, _, _⟩ := encode_facts d h0 h1
  unfold overlay
  split
  · exact g2
  · exact g1

set_option maxRecDepth 100000 in
theorem bitOf_eq_testBit : ∀ val < 256,
    bitOf val 7 = val.testBit 7 ∧ bitOf val 6 = val.testBit 6 ∧ bitOf val 5 = val.testBit 5 ∧
    bitOf val 4 = val.testBit 4 ∧ bitOf val 3 = val.testBit 3 ∧ bitOf val 2 = val.testBit 2 ∧
    bitOf val 1 = val.testBit 1 ∧ bitOf val 0 = val.testBit 0 := by
  decide

theorem sendToRegister_eq_pulses (val : Nat) (hv : val < 256) :
    sendToRegister val = pulses (bitsMsbFirst val) := by
  obtain ⟨b7, b6, b5, b4, b3, b2, b1, b0⟩ := bitOf_eq_testBit val hv
  simp only [sendToRegister, sendBits, bitsMsbFirst, pulses, b7, b6, b5, b4, b3, b2, b1,
    b0, List.cons_append, List.nil_append, List.append_nil]

theorem pulses_append (a b : List Bool) : pulses (a ++ b) = pulses a ++ pulses b := by
  induction a with
  | nil => rfl
  | cons x rest ih =>
    show Action.data x :: .clkPin true :: .clkPin false :: pulses (rest ++ b) = _
    rw [ih]
    rfl

theorem sampledBits_pulses (bits : List Bool) (v : Bool) :
    ∀ d : Bool, sampledBits d false (pulses bits ++ [.latch v]) = bits := by
  induction bits with
  | nil => intro d; rfl
  | cons b more ih =>
    intro d
    show b :: sampledBits b false (pulses more ++ [.latch v]) = _
    rw [ih b]

theorem renderNumber_shown (v : Int) (ud : Bool) (di : Int) (h : 0 ≤ v) :
    (renderNumber v ud di).map committed =
      some [(overlay ud di 0 (encode (v / 1000 % 10)), 0x01),
        (overlay ud di 1 (encode (v / 100 % 10)), 0x02),
        (overlay ud di 2 (encode (v / 10 % 10)), 0x04),
        (overlay ud di 3 (encode (v % 10)), 0x08)] ∧
    (renderNumber v ud di).map (fun trace => (committed trace).map (fun f => glyphOf f.1)) =
      some [some (v / 1000 % 10).toNat, some (v / 100 % 10).toNat, some (v / 10 % 10).toNat,
        some (v % 10).toNat] := by
  obtain ⟨r0, r1, r2, r3⟩ := digit_range v
  have hr := renderNumber_nonneg v ud di h
  have hc := committed_renderTrace _ _ _ _
    (overlay_lt ud di 0 _ (encode_lt _ r0.1 r0.2)) (overlay_lt ud di 1 _ (encode_lt _ r1.1 r1.2))
    (overlay_lt ud di 2 _ (encode_lt _ r2.1 r2.2)) (overlay_lt ud di 3 _ (encode_lt _ r3.1 r3.2))
  constructor
  · rw [hr, Option.map_some', hc]
  · rw [hr, Option.map_some', hc]
    simp only [List.map_cons, List.map_nil, glyphOf_overlay ud di 0 _ r0.1 r0.2,
      glyphOf_overlay ud di 1 _ r1.1 r1.2, glyphOf_overlay ud di 2 _ r2.1 r2.2,
      glyphOf_overlay ud di 3 _ r3.1 r3.2]

/-! ## Lemmas on binary32 rounding -/

theorem roundNearestEven_le (y : ℚ) (n : Int) (h : y ≤ n) : roundNearestEven y ≤ n := by
  have hf : ⌊y⌋ ≤ n := by
    have := Int.floor_le y
    exact_mod_cast (Int.floor_le_iff.mpr (by linarith) : ⌊y⌋ ≤ n)
  have hlt : ¬ (y - ⌊y⌋ < 1 / 2) → ⌊y⌋ + 1 ≤ n := by
    intro hn
    have h1 : (⌊y⌋ : ℚ) < n := by
      have := Int.floor_le y
      linarith
    have : ⌊y⌋ < n := by exact_mod_cast h1
    omega
  unfold roundNearestEven
  split
  · exact hf
  · rename_i hn
    split
    · exact hlt hn
    · split
      · exact hf
      · exact hlt hn

theorem roundNearestEven_nonneg (y : ℚ) (h : 0 ≤ y) : 0 ≤ roundNearestEven y := by
  have hf : 0 ≤ ⌊y⌋ := Int.floor_nonneg.mpr h
  unfold roundNearestEven
  split
  · exact hf
  · split
    · omega
    · split
      · exact hf
      · omega

theorem roundNearestEven_eq (y : ℚ) (n : Int) (h1 : (n : ℚ) - 1 / 2 < y)
    (h2 : y < (n : ℚ) + 1 / 2) : roundNearestEven y = n := by
  by_cases hge : (n : ℚ) ≤ y
  · have hfl : ⌊y⌋ = n := by
      rw [Int.floor_eq_iff]
      exact ⟨hge, by linarith⟩
    unfold roundNearestEven
    rw [hfl, if_pos (by linarith)]
  · have hfl : ⌊y⌋ = n - 1 := by
      rw [Int.floor_eq_iff]
      push_cast
      exact ⟨by linarith, by linarith⟩
    unfold roundNearestEven
    rw [hfl, if_neg (by push_cast; linarith), if_pos (by push_cast; linarith)]
    omega

theorem ulp32_pos (x : ℚ) : 0 < ulp32 x := by
  unfold ulp32
  positivity

theorem binadeExp_eq (x : ℚ) (e : Int) (he : -126 ≤ e) (h1 : (2 : ℚ) ^ e ≤ |x|)
    (h2 : |x| < (2 : ℚ) ^ (e + 1)) : binadeExp x = e := by
  have hpos : (0 : ℚ) < |x| := lt_of_lt_of_le (by positivity) h1
  have hlo : e ≤ Int.log 2 |x| :=
    (Int.zpow_le_iff_le_log (by decide : 1 < 2) hpos).mp (by exact_mod_cast h1)
  have hhi : Int.log 2 |x| < e + 1 :=
    (Int.lt_zpow_iff_log_lt (by decide : 1 < 2) hpos).mp (by exact_mod_cast h2)
  unfold binadeExp
  omega

theorem fl32_eq (x : ℚ) (e n : Int) (he : -126 ≤ e) (h1 : (2 : ℚ) ^ e ≤ |x|)
    (h2 : |x| < (2 : ℚ) ^ (e + 1)) (hn1 : (n : ℚ) - 1 / 2 < x / (2 : ℚ) ^ (e - 23))
    (hn2 : x / (2 : ℚ) ^ (e - 23) < (n : ℚ) + 1 / 2) :
    fl32 x = n * (2 : ℚ) ^ (e - 23) := by
  unfold fl32 ulp32
  rw [binadeExp_eq x e he h1 h2, roundNearestEven_eq _ n hn1 hn2]

theorem fl32_zero : fl32 0 = 0 := by
  unfold fl32
  rw [zero_div]
  have : roundNearestEven 0 = 0 := roundNearestEven_eq 0 0 (by norm_num) (by norm_num)
  rw [this]
  simp

theorem fl32_nonneg (x : ℚ) (h : 0 ≤ x) : 0 ≤ fl32 x := by
  unfold fl32
  have hu := ulp32_pos x
  have : (0 : ℚ) ≤ (roundNearestEven (x / ulp32 x) : ℚ) := by
    exact_mod_cast roundNearestEven_nonneg _ (div_nonneg h (le_of_lt hu))
  positivity

theorem binadeExp_mono (x y : ℚ) (hx : 0 < x) (hxy : x ≤ y) : binadeExp x ≤ binadeExp y := by
  unfold binadeExp
  rw [abs_of_pos hx, abs_of_pos (lt_of_lt_of_le hx hxy)]
  exact max_le_max (Int.log_mono_right hx hxy) (le_refl _)

theorem fl32_le_of_le (x y : ℚ) (n : Int) (hx : 0 ≤ x) (hxy : x ≤ y)
    (hy : y = n * ulp32 y) : fl32 x ≤ y := by
  rcases eq_or_lt_of_le hx with h0 | hpos
  · rw [← h0, fl32_zero]
    exact le_trans hx hxy
  · have hmono := binadeExp_mono x y hpos hxy
    obtain ⟨k, hk⟩ := Int.eq_ofNat_of_zero_le (by omega : 0 ≤ binadeExp y - binadeExp x)
    have hu : ulp32 y = (2 : ℚ) ^ k * ulp32 x := by
      unfold ulp32
      have : binadeExp y - 23 = (k : Int) + (binadeExp x - 23) := by omega
      rw [this, zpow_add₀ (by norm_num : (2 : ℚ) ≠ 0), zpow_natCast]
    have hux := ulp32_pos x
    have hyx : y / ulp32 x = ((n * 2 ^ k : Int) : ℚ) := by
      rw [hy, hu]
      push_cast
      field_simp
      ring
    have hle : roundNearestEven (x / ulp32 x) ≤ n * 2 ^ k := by
      apply roundNearestEven_le
      rw [← hyx]
      exact div_le_div_of_nonneg_right hxy (le_of_lt hux)
    have hle' : (roundNearestEven (x / ulp32 x) : ℚ) ≤ ((n * 2 ^ k : Int) : ℚ) := by
      exact_mod_cast hle
    unfold fl32
    calc (roundNearestEven (x / ulp32 x) : ℚ) * ulp32 x
        ≤ ((n * 2 ^ k : Int) : ℚ) * ulp32 x := mul_le_mul_of_nonneg_right hle' (le_of_lt hux)
      _ = y := by rw [← hyx]; field_simp


theorem voltageRef_eq : voltageRef = 13841203 / 4194304 := by
  unfold voltageRef
  rw [fl32_eq (33 / 10) 1 13841203 (by decide) (by rw [abs_of_pos] <;> norm_num)
    (by rw [abs_of_pos] <;> norm_num) (by norm_num) (by norm_num)]
  norm_num

theorem ulp32_eq (x : ℚ) (e : Int) (he : -126 ≤ e) (h1 : (2 : ℚ) ^ e ≤ |x|)
    (h2 : |x| < (2 : ℚ) ^ (e + 1)) : ulp32 x = (2 : ℚ) ^ (e - 23) := by
  unfold ulp32
  rw [binadeExp_eq x e he h1 h2]

theorem voltageRef_grid : voltageRef = ((13841203 : Int) : ℚ) * ulp32 voltageRef := by
  rw [ulp32_eq voltageRef 1 (by decide) (by rw [voltageRef_eq, abs_of_pos] <;> norm_num)
    (by rw [voltageRef_eq, abs_of_pos] <;> norm_num), voltageRef_eq]
  norm_num

theorem grid_330 : (330 : ℚ) = ((10813440 : Int) : ℚ) * ulp32 330 := by
  rw [ulp32_eq 330 8 (by decide) (by rw [abs_of_pos] <;> norm_num)
    (by rw [abs_of_pos] <;> norm_num)]
  norm_num

theorem fmul_ref_bounds (r : ℚ) (h0 : 0 ≤ r) (h1 : r ≤ 1) :
    0 ≤ fl32 (r * voltageRef) ∧ fl32 (r * voltageRef) ≤ voltageRef := by
  have hc : (0 : ℚ) ≤ voltageRef := by rw [voltageRef_eq]; norm_num
  constructor
  · exact fl32_nonneg _ (mul_nonneg h0 hc)
  · exact fl32_le_of_le _ _ 13841203 (mul_nonneg h0 hc) (by nlinarith) voltageRef_grid

theorem fmul_100_bounds (v : ℚ) (h0 : 0 ≤ v) (h1 : v ≤ voltageRef) :
    0 ≤ fl32 (v * 100) ∧ fl32 (v * 100) ≤ 330 := by
  constructor
  · exact fl32_nonneg _ (by positivity)
  · refine fl32_le_of_le _ _ 10813440 (by positivity) ?_ grid_330
    rw [voltageRef_eq] at h1
    linarith

theorem currentVoltage_bounds (inp : Inputs) (h0 : 0 ≤ inp.analog) (h1 : inp.analog ≤ 1) :
    0 ≤ currentVoltage inp ∧ currentVoltage inp ≤ voltageRef :=
  fmul_ref_bounds inp.analog h0 h1

theorem voltageProduct_bounds (inp : Inputs) (h0 : 0 ≤ inp.analog) (h1 : inp.analog ≤ 1) :
    0 ≤ fl32 (currentVoltage inp * 100) ∧ fl32 (currentVoltage inp * 100) ≤ 330 :=
  fmul_100_bounds (currentVoltage inp) (currentVoltage_bounds inp h0 h1).1
    (currentVoltage_bounds inp h0 h1).2

theorem fl32_mul_voltageRef (r : ℚ) (e n : Int) (he : -126 ≤ e)
    (h1 : (2 : ℚ) ^ e ≤ |r * (13841203 / 4194304)|)
    (h2 : |r * (13841203 / 4194304)| < (2 : ℚ) ^ (e + 1))
    (hn1 : (n : ℚ) - 1 / 2 < r * (13841203 / 4194304) / (2 : ℚ) ^ (e - 23))
    (hn2 : r * (13841203 / 4194304) / (2 : ℚ) ^ (e - 23) < (n : ℚ) + 1 / 2) :
    fl32 (r * voltageRef) = n * (2 : ℚ) ^ (e - 23) := by
  rw [voltageRef_eq]
  exact fl32_eq _ e n he h1 h2 hn1 hn2

theorem voltage_at_247 : fl32 (3139373 / 4194304 * voltageRef) = 10359931 / 4194304 := by
  rw [fl32_mul_voltageRef _ 1 10359931 (by decide) (by rw [abs_of_pos] <;> norm_num)
    (by rw [abs_of_pos] <;> norm_num) (by norm_num) (by norm_num)]
  norm_num

theorem product_at_247 : fl32 (10359931 / 4194304 * 100) = 247 := by
  rw [fl32_eq _ 7 16187392 (by decide) (by rw [abs_of_pos] <;> norm_num)
    (by rw [abs_of_pos] <;> norm_num) (by norm_num) (by norm_num)]
  norm_num

theorem voltage_at_half : fl32 (1 / 2 * voltageRef) = 13841203 / 8388608 := by
  rw [fl32_mul_voltageRef _ 0 13841203 (by decide) (by rw [abs_of_pos] <;> norm_num)
    (by rw [abs_of_pos] <;> norm_num) (by norm_num) (by norm_num)]
  norm_num

theorem product_at_half : fl32 (13841203 / 8388608 * 100) = 165 := by
  rw [fl32_eq _ 7 10813440 (by decide) (by rw [abs_of_pos] <;> norm_num)
    (by rw [abs_of_pos] <;> norm_num) (by norm_num) (by norm_num)]
  norm_num

theorem voltage_at_512th : fl32 (1 / 512 * voltageRef) = 13841203 / 2147483648 := by
  rw [fl32_mul_voltageRef _ (-8) 13841203 (by decide) (by rw [abs_of_pos] <;> norm_num)
    (by rw [abs_of_pos] <;> norm_num) (by norm_num) (by norm_num)]
  norm_num

theorem product_at_512th : fl32 (13841203 / 2147483648 * 100) = 165 / 256 := by
  rw [fl32_eq _ (-1) 10813440 (by decide) (by rw [abs_of_pos] <;> norm_num)
    (by rw [abs_of_pos] <;> norm_num) (by norm_num) (by norm_num)]
  norm_num

theorem voltage_at_double_rounding : fl32 (3177503 / 4194304 * voltageRef) = 5 / 2 := by
  rw [fl32_mul_voltageRef _ 1 10485760 (by decide) (by rw [abs_of_pos] <;> norm_num)
    (by rw [abs_of_pos] <;> norm_num) (by norm_num) (by norm_num)]
  norm_num

theorem product_at_double_rounding : fl32 (5 / 2 * 100) = 250 := by
  rw [fl32_eq _ 7 16384000 (by decide) (by rw [abs_of_pos] <;> norm_num)
    (by rw [abs_of_pos] <;> norm_num) (by norm_num) (by norm_num)]
  norm_num

theorem voltage_at_one : fl32 (1 * voltageRef) = 13841203 / 4194304 := by
  rw [fl32_mul_voltageRef _ 1 13841203 (by decide) (by rw [abs_of_pos] <;> norm_num)
    (by rw [abs_of_pos] <;> norm_num) (by norm_num) (by norm_num)]
  norm_num

theorem voltage_at_two : fl32 (2 * voltageRef) = 13841203 / 2097152 := by
  rw [fl32_mul_voltageRef _ 2 13841203 (by decide) (by rw [abs_of_pos] <;> norm_num)
    (by rw [abs_of_pos] <;> norm_num) (by norm_num) (by norm_num)]
  norm_num

theorem voltage_at_three : fl32 (3 * voltageRef) = 5190451 / 524288 := by
  rw [fl32_mul_voltageRef _ 3 10380902 (by decide) (by rw [abs_of_pos] <;> norm_num)
    (by rw [abs_of_pos] <;> norm_num) (by norm_num) (by norm_num)]
  norm_num

theorem fl32_fixed (x : ℚ) (e n : Int) (he : -126 ≤ e) (h1 : (2 : ℚ) ^ e ≤ |x|)
    (h2 : |x| < (2 : ℚ) ^ (e + 1)) (hx : x = n * (2 : ℚ) ^ (e - 23)) : fl32 x = x := by
  have hpos : (0 : ℚ) < (2 : ℚ) ^ (e - 23) := by positivity
  have hq : x / (2 : ℚ) ^ (e - 23) = n := by
    rw [hx]
    field_simp
  rw [fl32_eq x e n he h1 h2 (by rw [hq]; linarith) (by rw [hq]; linarith)]
  exact hx.symm

/-! ## Lemmas on the main loop -/

theorem updateLowest_fields (s : ProgState) (v : ℚ) :
    (updateLowest s v).time = s.time ∧
    (updateLowest s v).lowestVoltage = min s.lowestVoltage v ∧
    (updateLowest s v).highestVoltage = s.highestVoltage := by
  unfold updateLowest
  by_cases h : v < s.lowestVoltage
  · rw [if_pos h, min_eq_right (le_of_lt h)]
    exact ⟨rfl, rfl, rfl⟩
  · rw [if_neg h, min_eq_left (not_lt.mp h)]
    exact ⟨rfl, rfl, rfl⟩

theorem updateHighest_fields (s : ProgState) (v : ℚ) :
    (updateHighest s v).time = s.time ∧
    (updateHighest s v).lowestVoltage = s.lowestVoltage ∧
    (updateHighest s v).highestVoltage = max s.highestVoltage v := by
  unfold updateHighest
  by_cases h : v > s.highestVoltage
  · rw [if_pos h, max_eq_right (le_of_lt h)]
    exact ⟨rfl, rfl, rfl⟩
  · rw [if_neg h, max_eq_left (not_lt.mp h)]
    exact ⟨rfl, rfl, rfl⟩

theorem updateExtrema_time (s : ProgState) (v : ℚ) : (updateExtrema s v).time = s.time := by
  unfold updateExtrema
  rw [(updateHighest_fields _ v).1, (updateLowest_fields s v).1]

theorem updateExtrema_lowest (s : ProgState) (v : ℚ) :
    (updateExtrema s v).lowestVoltage = min s.lowestVoltage v := by
  unfold updateExtrema
  rw [(updateHighest_fields _ v).2.1, (updateLowest_fields s v).2.1]

theorem updateExtrema_highest (s : ProgState) (v : ℚ) :
    (updateExtrema s v).highestVoltage = max s.highestVoltage v := by
  unfold updateExtrema
  rw [(updateHighest_fields _ v).2.2, (updateLowest_fields s v).2.2]

theorem resetPhase_extrema (s : ProgState) (inp : Inputs) :
    (resetPhase s inp).1.lowestVoltage = s.lowestVoltage ∧
    (resetPhase s inp).1.highestVoltage = s.highestVoltage := by
  unfold resetPhase
  split <;> exact ⟨rfl, rfl⟩

theorem resetPhase_time (s : ProgState) (inp : Inputs) :
    (resetPhase s inp).1.time = if inp.btnReset then s.time else bootTime := by
  unfold resetPhase
  cases inp.btnReset <;> rfl

theorem resetPhase_committed (s : ProgState) (inp : Inputs) (acts : List Action) :
    committed ((resetPhase s inp).2 ++ acts) = committed acts := by
  unfold resetPhase
  split <;> rfl

theorem loopIteration_time (s : ProgState) (inp : Inputs) :
    (loopIteration s inp).1.time = if inp.btnReset then s.time else bootTime := by
  show (updateExtrema _ _).time = _
  rw [updateExtrema_time, resetPhase_time]

theorem loopIteration_trace (s : ProgState) (inp : Inputs) :
    (loopIteration s inp).2 =
      (displayPhase (loopIteration s inp).1 inp).map (fun acts => (resetPhase s inp).2 ++ acts) :=
  rfl

theorem loopIteration_committed (s : ProgState) (inp : Inputs) :
    (loopIteration s inp).2.map committed =
      (displayPhase (loopIteration s inp).1 inp).map committed := by
  show Option.map committed (Option.map _ (displayPhase (loopIteration s inp).1 inp)) = _
  cases displayPhase (loopIteration s inp).1 inp with
  | none => rfl
  | some acts =>
    simp only [Option.map_some']
    rw [resetPhase_committed]

theorem displayTime_inv (t : TimeState) (h : TimeInv t) :
    displayTime t = t.elapsedMinutes * 100 + t.elapsedSeconds := by
  obtain ⟨h0, h1, h2, h3⟩ := h
  unfold displayTime wrapInt
  omega

theorem floatToInt_nonneg (x : ℚ) (h0 : 0 ≤ x) (h1 : x < 2147483648) :
    floatToInt x = some ⌊x⌋ := by
  have hlo : (0 : Int) ≤ ⌊x⌋ := Int.floor_nonneg.mpr h0
  have hhi : ⌊x⌋ < 2147483648 := by
    rw [Int.floor_lt]
    exact_mod_cast h1
  unfold floatToInt
  simp only [if_pos h0]
  rw [if_pos]
  constructor <;> omega

theorem voltageAsInt_eq (inp : Inputs) (k : Int) (h0 : 0 ≤ k) (h1 : k < 2147483647)
    (hlo : (k : ℚ) ≤ fl32 (currentVoltage inp * 100))
    (hhi : fl32 (currentVoltage inp * 100) < (k : ℚ) + 1) :
    voltageAsInt inp = some k := by
  have hx0 : (0 : ℚ) ≤ fl32 (currentVoltage inp * 100) := le_trans (by exact_mod_cast h0) hlo
  have hx1 : fl32 (currentVoltage inp * 100) < 2147483648 := by
    have : (k : ℚ) + 1 ≤ 2147483648 := by exact_mod_cast (by omega : k + 1 ≤ 2147483648)
    exact lt_of_lt_of_le hhi this
  unfold voltageAsInt
  rw [floatToInt_nonneg _ hx0 hx1]
  congr 1
  rw [Int.floor_eq_iff]
  exact ⟨hlo, hhi⟩

theorem voltageAsInt_of_product (inp : Inputs) (k : Int) (h0 : 0 ≤ k) (h1 : k < 2147483647)
    (hp : fl32 (currentVoltage inp * 100) = (k : ℚ)) : voltageAsInt inp = some k :=
  voltageAsInt_eq inp k h0 h1 (by rw [hp]) (by rw [hp]; linarith)

theorem displayPhase_clock (s : ProgState) (inp : Inputs) (hmode : inp.btnVoltage = true)
    (hinv : TimeInv s.time) :
    displayPhase s inp =
      some (renderTrace (encode (s.time.elapsedMinutes / 10)) (encode (s.time.elapsedMinutes % 10))
        (encode (s.time.elapsedSeconds / 10)) (encode (s.time.elapsedSeconds % 10))) := by
  obtain ⟨h0, h1, h2, h3⟩ := hinv
  have hv := displayTime_inv s.time ⟨h0, h1, h2, h3⟩
  unfold displayPhase
  rw [hmode, hv]
  simp only [Bool.not_true, Bool.false_eq_true, if_false]
  rw [renderNumber_nonneg _ false (-1) (by omega)]
  have e0 : (s.time.elapsedMinutes * 100 + s.time.elapsedSeconds) / 1000 % 10
      = s.time.elapsedMinutes / 10 := by omega
  have e1 : (s.time.elapsedMinutes * 100 + s.time.elapsedSeconds) / 100 % 10
      = s.time.elapsedMinutes % 10 := by omega
  have e2 : (s.time.elapsedMinutes * 100 + s.time.elapsedSeconds) / 10 % 10
      = s.time.elapsedSeconds / 10 := by omega
  have e3 : (s.time.elapsedMinutes * 100 + s.time.elapsedSeconds) % 10
      = s.time.elapsedSeconds % 10 := by omega
  rw [e0, e1, e2, e3]
  rfl

theorem displayPhase_clock_committed (s : ProgState) (inp : Inputs)
    (hmode : inp.btnVoltage = true) (hinv : TimeInv s.time) :
    (displayPhase s inp).map committed = some (clockFrames s.time) := by
  obtain ⟨h0, h1, h2, h3⟩ := hinv
  rw [displayPhase_clock s inp hmode ⟨h0, h1, h2, h3⟩, Option.map_some',
    committed_renderTrace _ _ _ _ (encode_lt _ (by omega) (by omega))
      (encode_lt _ (by omega) (by omega)) (encode_lt _ (by omega) (by omega))
      (encode_lt _ (by omega) (by omega))]
  rfl

theorem displayPhase_volt_committed (s : ProgState) (inp : Inputs) (k : Int)
    (hmode : inp.btnVoltage = false) (hk : voltageAsInt inp = some k) (h0 : 0 ≤ k) :
    (displayPhase s inp).map committed = some (voltFrames k) := by
  obtain ⟨r0, r1, r2, r3⟩ := digit_range k
  unfold displayPhase
  rw [hmode, hk]
  simp only [Bool.not_false, if_true]
  rw [renderNumber_nonneg k true 1 h0, Option.map_some',
    committed_renderTrace _ _ _ _ (overlay_lt _ _ _ _ (encode_lt _ r0.1 r0.2))
      (overlay_lt _ _ _ _ (encode_lt _ r1.1 r1.2)) (overlay_lt _ _ _ _ (encode_lt _ r2.1 r2.2))
      (overlay_lt _ _ _ _ (encode_lt _ r3.1 r3.2))]
  rfl

theorem foldl_min_le (l : List ℚ) :
    ∀ a : ℚ, l.foldl min a ≤ a ∧ ∀ v ∈ l, l.foldl min a ≤ v := by
  induction l with
  | nil =>
    intro a
    exact ⟨le_refl a, fun v hv => absurd hv (List.not_mem_nil v)⟩
  | cons x rest ih =>
    intro a
    obtain ⟨h1, h2⟩ := ih (min a x)
    refine ⟨le_trans h1 (min_le_left a x), ?_⟩
    intro v hv
    rcases List.mem_cons.mp hv with rfl | hv
    · exact le_trans h1 (min_le_right a v)
    · exact h2 v hv

theorem le_foldl_max (l : List ℚ) :
    ∀ a : ℚ, a ≤ l.foldl max a ∧ ∀ v ∈ l, v ≤ l.foldl max a := by
  induction l with
  | nil =>
    intro a
    exact ⟨le_refl a, fun v hv => absurd hv (List.not_mem_nil v)⟩
  | cons x rest ih =>
    intro a
    obtain ⟨h1, h2⟩ := ih (max a x)
    refine ⟨le_trans (le_max_left a x) h1, ?_⟩
    intro v hv
    rcases List.mem_cons.mp hv with rfl | hv
    · exact le_trans (le_max_right a v) h1
    · exact h2 v hv

theorem loopIteration_extrema (s : ProgState) (inp : Inputs) :
    (loopIteration s inp).1.lowestVoltage = min s.lowestVoltage (currentVoltage inp) ∧
    (loopIteration s inp).1.highestVoltage = max s.highestVoltage (currentVoltage inp) := by
  obtain ⟨hl, hh⟩ := resetPhase_extrema s inp
  constructor
  · show (updateExtrema _ _).lowestVoltage = _
    rw [updateExtrema_lowest, hl]
  · show (updateExtrema _ _).highestVoltage = _
    rw [updateExtrema_highest, hh]

theorem runProg_extrema (events : List ProgEvent) :
    ∀ s : ProgState,
      (runProg events s).lowestVoltage = (sampledVoltages events).foldl min s.lowestVoltage ∧
      (runProg events s).highestVoltage =
        (sampledVoltages events).foldl max s.highestVoltage := by
  induction events with
  | nil => intro s; exact ⟨rfl, rfl⟩
  | cons e rest ih =>
    intro s
    cases e with
    | tick => exact ih (tickProg s)
    | iteration inp =>
      obtain ⟨h1, h2⟩ := ih (loopIteration s inp).1
      obtain ⟨e1, e2⟩ := loopIteration_extrema s inp
      constructor
      · show (runProg rest (loopIteration s inp).1).lowestVoltage = _
        rw [h1, e1]
        rfl
      · show (runProg rest (loopIteration s inp).1).highestVoltage = _
        rw [h2, e2]
        rfl

theorem patternAt_none (ud : Bool) (di : Int) (i : Nat) (d : Int) (h : segmentAt d = none) :
    patternAt ud di i d = none := by
  unfold patternAt
  rw [h]

theorem renderLoop_bad_digit (ud : Bool) (di : Int) (d0 d1 d2 d3 : Int)
    (h : segmentAt d0 = none ∨ segmentAt d1 = none ∨ segmentAt d2 = none ∨
      segmentAt d3 = none) :
    renderLoop [d0, d1, d2, d3] ud di 4 0 = none := by
  simp only [renderLoop, digitSelect, List.getElem?_cons_zero, List.getElem?_cons_succ]
  rcases h with h | h | h | h
  · rw [patternAt_none ud di 0 d0 h]
  · rw [patternAt_none ud di 1 d1 h]
    cases patternAt ud di 0 d0 <;> rfl
  · rw [patternAt_none ud di 2 d2 h]
    cases patternAt ud di 0 d0 <;> cases patternAt ud di 1 d1 <;> rfl
  · rw [patternAt_none ud di 3 d3 h]
    cases patternAt ud di 0 d0 <;> cases patternAt ud di 1 d1 <;>
      cases patternAt ud di 2 d2 <;> rfl

theorem segmentAt_neg (d : Int) (h : d < 0) : segmentAt d = none := by
  unfold segmentAt
  rw [if_neg (by omega)]

theorem tmod_neg_left (a b : Int) : Int.tmod (-a) b = -(Int.tmod a b) := by
  rw [Int.tmod_def, Int.tmod_def, Int.neg_tdiv]
  ring

theorem digitsOf_neg (a : Int) (h : 0 ≤ a) :
    digitsOf (-a) = [-(a / 1000 % 10), -(a / 100 % 10), -(a / 10 % 10), -(a % 10)] := by
  unfold digitsOf
  rw [Int.neg_tdiv, Int.neg_tdiv, Int.neg_tdiv, tmod_neg_left, tmod_neg_left, tmod_neg_left,
    tmod_neg_left, tdiv_of_nonneg a 1000 h (by decide), tdiv_of_nonneg a 100 h (by decide),
    tdiv_of_nonneg a 10 h (by decide), tmod_of_nonneg a 10 h (by decide),
    tmod_of_nonneg (a / 1000) 10 (by omega) (by decide),
    tmod_of_nonneg (a / 100) 10 (by omega) (by decide),
    tmod_of_nonneg (a / 10) 10 (by omega) (by decide)]

theorem renderNumber_small_negative (num : Int) (ud : Bool) (di : Int)
    (h0 : -9999 ≤ num) (h1 : num ≤ -1) : renderNumber num ud di = none := by
  have hnum : num = -(-num) := by omega
  unfold renderNumber
  rw [hnum, digitsOf_neg (-num) (by omega)]
  apply renderLoop_bad_digit
  by_cases c0 : 0 < -num / 1000 % 10
  · exact Or.inl (segmentAt_neg _ (by omega))
  · by_cases c1 : 0 < -num / 100 % 10
    · exact Or.inr (Or.inl (segmentAt_neg _ (by omega)))
    · by_cases c2 : 0 < -num / 10 % 10
      · exact Or.inr (Or.inr (Or.inl (segmentAt_neg _ (by omega))))
      · exact Or.inr (Or.inr (Or.inr (segmentAt_neg _ (by omega))))

theorem exists_negative_digit (num : Int) (h0 : -9999 ≤ num) (h1 : num ≤ -1) :
    ∃ d ∈ digitsOf num, d < 0 := by
  have hnum : num = -(-num) := by omega
  rw [hnum, digitsOf_neg (-num) (by omega)]
  by_cases c0 : 0 < -num / 1000 % 10
  · exact ⟨_, List.mem_cons_self _ _, by omega⟩
  · by_cases c1 : 0 < -num / 100 % 10
    · exact ⟨_, List.mem_cons_of_mem _ (List.mem_cons_self _ _), by omega⟩
    · by_cases c2 : 0 < -num / 10 % 10
      · exact ⟨_, List.mem_cons_of_mem _ (List.mem_cons_of_mem _ (List.mem_cons_self _ _)),
          by omega⟩
      · exact ⟨_, List.mem_cons_of_mem _ (List.mem_cons_of_mem _
          (List.mem_cons_of_mem _ (List.mem_cons_self _ _))), by omega⟩

theorem clockReadAt_same (order : ReadOrder) (t : TimeState) :
    clockReadAt order t t = displayTime t := by
  cases order <;> rfl

theorem clockReadAt_inv (t0 t1 : TimeState) (h0 : TimeInv t0) (h1 : TimeInv t1) :
    clockReadAt .minutesFirst t0 t1 = t0.elapsedMinutes * 100 + t1.elapsedSeconds ∧
    clockReadAt .secondsFirst t0 t1 = t1.elapsedMinutes * 100 + t0.elapsedSeconds := by
  obtain ⟨a0, a1, a2, a3⟩ := h0
  obtain ⟨b0, b1, b2, b3⟩ := h1
  constructor
  · show wrapInt (wrapInt (t0.elapsedMinutes * 100) + t1.elapsedSeconds) = _
    unfold wrapInt
    omega
  · show wrapInt (wrapInt (t1.elapsedMinutes * 100) + t0.elapsedSeconds) = _
    unfold wrapInt
    omega

theorem windowState_eq (t : TimeState) (a b c : Nat) (h : b + c < 60) :
    windowState t a b c = { elapsedSeconds := ((b + c : Nat) : Int), elapsedMinutes := 0 } := by
  unfold windowState
  have h1 : clearSeconds (ticks a t) =
      { elapsedSeconds := 0, elapsedMinutes := (ticks a t).elapsedMinutes } := rfl
  rw [h1, ticks_small b 0 _ (le_refl 0) (by omega)]
  have h2 : clearMinutes ⟨0 + (b : Int), (ticks a t).elapsedMinutes⟩ = ⟨0 + (b : Int), 0⟩ := rfl
  rw [h2, ticks_small c (0 + (b : Int)) 0 (by omega) (by omega), TimeState.mk.injEq]
  exact ⟨by push_cast; omega, rfl⟩

theorem displayValue_range (s : ProgState) (inp : Inputs) (hinv : TimeInv s.time)
    (h0 : 0 ≤ inp.analog) (h1 : inp.analog ≤ 1) :
    ∃ k : Int, displayValue s inp = some k ∧
      displayPhase s inp =
        renderNumber k (!inp.btnVoltage) (if inp.btnVoltage then -1 else 1) ∧
      0 ≤ k ∧ k ≤ 9999 ∧ (inp.btnVoltage = true → k ≤ 9959) ∧
      (inp.btnVoltage = false → k ≤ 330) := by
  cases hb : inp.btnVoltage with
  | true =>
    obtain ⟨a0, a1, a2, a3⟩ := hinv
    have hv := displayTime_inv s.time ⟨a0, a1, a2, a3⟩
    refine ⟨displayTime s.time, ?_, ?_, by omega, by omega, fun _ => by omega, ?_⟩
    · unfold displayValue
      rw [hb]
      rfl
    · unfold displayPhase
      rw [hb]
      rfl
    · intro hc
      exact absurd hc (by decide)
  | false =>
    obtain ⟨hx0, hx1⟩ := voltageProduct_bounds inp h0 h1
    have hf0 : 0 ≤ ⌊fl32 (currentVoltage inp * 100)⌋ := Int.floor_nonneg.mpr hx0
    have hf1 : ⌊fl32 (currentVoltage inp * 100)⌋ ≤ 330 := by
      have : ⌊fl32 (currentVoltage inp * 100)⌋ ≤ ⌊(330 : ℚ)⌋ := Int.floor_mono hx1
      simpa using this
    have hk : voltageAsInt inp = some ⌊fl32 (currentVoltage inp * 100)⌋ :=
      voltageAsInt_eq inp _ hf0 (by omega) (Int.floor_le _) (Int.lt_floor_add_one _)
    refine ⟨⌊fl32 (currentVoltage inp * 100)⌋, ?_, ?_, hf0, by omega, ?_, fun _ => hf1⟩
    · unfold displayValue
      rw [hb]
      exact hk
    · unfold displayPhase
      rw [hb, hk]
      rfl
    · intro hc
      exact absurd hc (by decide)

/-! ## Theorems: time keeping -/

/-- C1: the time-state invariant `0 ≤ seconds < 60 ∧ 0 ≤ minutes < 100` holds in the boot
state, is preserved by `incrementTime`, by each of the two stores of the reset branch and by
the whole reset, and therefore holds in every state reached from the boot state by a finite
sequence of ticks and reset stores, in any interleaving. -/
theorem C1_time_invariant :
    TimeInv bootTime ∧
    (∀ t, TimeInv t → TimeInv (incrementTime t)) ∧
    (∀ t, TimeInv t → TimeInv (clearSeconds t) ∧ TimeInv (clearMinutes t)) ∧
    (∀ t, TimeInv (resetTime t)) ∧
    (∀ steps : List TimeStep, TimeInv (runTime steps bootTime)) := by
  have hboot : TimeInv bootTime := by decide
  refine ⟨hboot, incrementTime_inv, ?_, ?_, ?_⟩
  · intro t h
    exact ⟨clearSeconds_inv t h, clearMinutes_inv t h⟩
  · intro t
    rw [resetTime_eq]
    exact hboot
  · intro steps
    exact runTime_inv steps bootTime hboot

/-- Witness for C1: the invariant at the concrete state 59 s / 99 min, across a tick. -/
theorem C1_time_invariant_witness :
    TimeInv { elapsedSeconds := 59, elapsedMinutes := 99 } ∧
    TimeInv (incrementTime { elapsedSeconds := 59, elapsedMinutes := 99 }) ∧
    TimeInv (runTime [.tick, .clearSec, .tick, .clearMin] bootTime) :=
  ⟨by decide,
   C1_time_invariant.2.1 { elapsedSeconds := 59, elapsedMinutes := 99 } (by decide),
   C1_time_invariant.2.2.2.2 [.tick, .clearSec, .tick, .clearMin]⟩

/-- C2: after exactly `n` ticks from the boot state, `seconds = n mod 60` and
`minutes = (n div 60) mod 100`; after 60 ticks the state is (0 s, 1 min), after 5999 ticks it
is (59 s, 99 min), and after 6000 ticks it is (0 s, 0 min): minutes wrapped from 99 to 0. -/
theorem C2_ticks_closed_form :
    (∀ n : Nat,
      (ticks n bootTime).elapsedSeconds = ((n % 60 : Nat) : Int) ∧
      (ticks n bootTime).elapsedMinutes = (((n / 60) % 100 : Nat) : Int)) ∧
    ticks 60 bootTime = { elapsedSeconds := 0, elapsedMinutes := 1 } ∧
    ticks 5999 bootTime = { elapsedSeconds := 59, elapsedMinutes := 99 } ∧
    ticks 6000 bootTime = { elapsedSeconds := 0, elapsedMinutes := 0 } := by
  refine ⟨?_, ?_, ?_, ?_⟩
  · intro n
    rw [ticks_spec n]
    exact ⟨rfl, rfl⟩
  · rw [ticks_spec 60]; rfl
  · rw [ticks_spec 5999]; rfl
  · rw [ticks_spec 6000]; rfl


/-! ## Theorems: display path -/

/-- C3: for every `v` with `0 ≤ v ≤ 9999` and every `useDecimal`, `decimalIndex`,
`renderNumber` is defined and its trace is exactly four calls of `outputToDisplay`, in the
order `i = 0, 1, 2, 3`; the register latches exactly four frames, whose enable bytes are
`0x01, 0x02, 0x04, 0x08` and whose segment bytes show the digits `(v/1000)%10`, `(v/100)%10`,
`(v/10)%10`, `v%10`; these digits satisfy `1000*d0 + 100*d1 + 10*d2 + d3 = v`. -/
theorem C3_renderNumber_digits (v : Int) (useDecimal : Bool) (decimalIndex : Int)
    (h0 : 0 ≤ v) (h1 : v ≤ 9999) :
    digitsOf v = [v / 1000 % 10, v / 100 % 10, v / 10 % 10, v % 10] ∧
    1000 * (v / 1000 % 10) + 100 * (v / 100 % 10) + 10 * (v / 10 % 10) + v % 10 = v ∧
    renderNumber v useDecimal decimalIndex =
      some (renderTrace (overlay useDecimal decimalIndex 0 (encode (v / 1000 % 10)))
        (overlay useDecimal decimalIndex 1 (encode (v / 100 % 10)))
        (overlay useDecimal decimalIndex 2 (encode (v / 10 % 10)))
        (overlay useDecimal decimalIndex 3 (encode (v % 10)))) ∧
    (renderNumber v useDecimal decimalIndex).map committed =
      some [(overlay useDecimal decimalIndex 0 (encode (v / 1000 % 10)), 0x01),
        (overlay useDecimal decimalIndex 1 (encode (v / 100 % 10)), 0x02),
        (overlay useDecimal decimalIndex 2 (encode (v / 10 % 10)), 0x04),
        (overlay useDecimal decimalIndex 3 (encode (v % 10)), 0x08)] ∧
    (renderNumber v useDecimal decimalIndex).map
        (fun trace => (committed trace).map (fun f => glyphOf f.1)) =
      some [some (v / 1000 % 10).toNat, some (v / 100 % 10).toNat, some (v / 10 % 10).toNat,
        some (v % 10).toNat] := by
  obtain ⟨r0, r1, r2, r3⟩ := digit_range v
  have hr := renderNumber_nonneg v useDecimal decimalIndex h0
  have hc := committed_renderTrace _ _ _ _
    (overlay_lt useDecimal decimalIndex 0 _ (encode_lt _ r0.1 r0.2))
    (overlay_lt useDecimal decimalIndex 1 _ (encode_lt _ r1.1 r1.2))
    (overlay_lt useDecimal decimalIndex 2 _ (encode_lt _ r2.1 r2.2))
    (overlay_lt useDecimal decimalIndex 3 _ (encode_lt _ r3.1 r3.2))
  refine ⟨digitsOf_nonneg v h0, by omega, hr, ?_, ?_⟩
  · rw [hr, Option.map_some', hc]
  · rw [hr, Option.map_some', hc]
    simp only [List.map_cons, List.map_nil,
      glyphOf_overlay useDecimal decimalIndex 0 _ r0.1 r0.2,
      glyphOf_overlay useDecimal decimalIndex 1 _ r1.1 r1.2,
      glyphOf_overlay useDecimal decimalIndex 2 _ r2.1 r2.2,
      glyphOf_overlay useDecimal decimalIndex 3 _ r3.1 r3.2]

/-- Witness for C3 at `v = 1234`, `useDecimal = true`, `decimalIndex = 1`. -/
theorem C3_renderNumber_digits_witness :
    (0 : Int) ≤ 1234 ∧ (1234 : Int) ≤ 9999 ∧
    (renderNumber 1234 true 1).map
        (fun trace => (committed trace).map (fun f => glyphOf f.1)) =
      some [some 1, some 2, some 3, some 4] :=
  ⟨by decide, by decide, (C3_renderNumber_digits 1234 true 1 (by decide) (by decide)).2.2.2.2⟩

/-- C5: the table `segmentCodes` holds, for the digits 0..9, the bytes `0xC0, 0xF9, 0xA4,
0xB0, 0x99, 0x92, 0x82, 0xF8, 0x80, 0x90`, which are the 8-bit complements of the glyph codes
`0x3F, 0x06, 0x5B, 0x4F, 0x66, 0x6D, 0x7D, 0x07, 0x7F, 0x6F`. -/
theorem C5_segmentCodes_table :
    segmentCodes = [0xC0, 0xF9, 0xA4, 0xB0, 0x99, 0x92, 0x82, 0xF8, 0x80, 0x90] ∧
    segmentCodes =
      [0x3F, 0x06, 0x5B, 0x4F, 0x66, 0x6D, 0x7D, 0x07, 0x7F, 0x6F].map (fun g => g ^^^ 0xFF) ∧
    (∀ d : Fin 10, segmentAt (d.val : Int) =
      [0xC0, 0xF9, 0xA4, 0xB0, 0x99, 0x92, 0x82, 0xF8, 0x80, 0x90][d.val]?) := by
  decide

/-- C6: for all bytes `segData`, `digitEnable`, the trace of `outputToDisplay` is: latch low,
then 16 clock pulses (data bit, clock high, clock low) carrying bits 7..0 of `segData`
followed by bits 7..0 of `digitEnable`, then latch high; the data-line levels at the 16
rising clock edges are exactly these bits, and a 16-bit shift register whose clock line is
low beforehand latches exactly the pair `(segData, digitEnable)`. -/
theorem C6_outputToDisplay_trace (segData digitEnable : Nat)
    (hs : segData < 256) (he : digitEnable < 256) :
    outputToDisplay segData digitEnable =
      [.latch false] ++ pulses (bitsMsbFirst segData ++ bitsMsbFirst digitEnable) ++
        [.latch true] ∧
    (bitsMsbFirst segData ++ bitsMsbFirst digitEnable).length = 16 ∧
    (∀ d : Bool, sampledBits d false (outputToDisplay segData digitEnable) =
      bitsMsbFirst segData ++ bitsMsbFirst digitEnable) ∧
    (∀ r : Register, r.clkLine = false →
      (r.run (outputToDisplay segData digitEnable)).frames =
        r.frames ++ [(segData, digitEnable)] ∧
      (r.run (outputToDisplay segData digitEnable)).shift = segData * 256 + digitEnable) ∧
    committed (outputToDisplay segData digitEnable) = [(segData, digitEnable)] := by
  have hshape : outputToDisplay segData digitEnable =
      [.latch false] ++ pulses (bitsMsbFirst segData ++ bitsMsbFirst digitEnable) ++
        [.latch true] := by
    unfold outputToDisplay
    rw [sendToRegister_eq_pulses segData hs, sendToRegister_eq_pulses digitEnable he,
      pulses_append, List.append_assoc, List.append_assoc, List.append_assoc,
      List.append_assoc]
  refine ⟨hshape, rfl, ?_, ?_, ?_⟩
  · intro d
    rw [hshape, List.append_assoc]
    show sampledBits d false (pulses _ ++ [.latch true]) = _
    exact sampledBits_pulses _ true d
  · intro r hc
    rw [Register.run_outputToDisplay r segData digitEnable hs he hc]
    exact ⟨rfl, rfl⟩
  · unfold committed
    rw [Register.run_outputToDisplay Register.boot segData digitEnable hs he rfl]
    rfl

/-- Witness for C6 at `segData = 0xA4`, `digitEnable = 0x02`. -/
theorem C6_outputToDisplay_trace_witness :
    (0xA4 : Nat) < 256 ∧ (0x02 : Nat) < 256 ∧ committed (outputToDisplay 0xA4 0x02) = [(0xA4, 0x02)] :=
  ⟨by decide, by decide, (C6_outputToDisplay_trace 0xA4 0x02 (by decide) (by decide)).2.2.2.2⟩

/-- C10: for every `int` value `v ≥ 10000`, `renderNumber` extracts the same four digits as
for `v % 10000` (the decimal digits of `v mod 10000`), it is defined, and its whole trace,
hence every committed byte, is identical to the trace for `v % 10000`: the four frames
latched carry the table entries of the digits of `v mod 10000` with enables
`0x01, 0x02, 0x04, 0x08`, each showing its digit, and nothing else is committed. -/
theorem C10_renderNumber_truncates (v : Int) (useDecimal : Bool) (decimalIndex : Int)
    (h0 : 10000 ≤ v) (h1 : v ≤ 2147483647) :
    Int.tmod v 10000 = v % 10000 ∧
    digitsOf v = digitsOf (Int.tmod v 10000) ∧
    digitsOf v = [v % 10000 / 1000 % 10, v % 10000 / 100 % 10, v % 10000 / 10 % 10,
      v % 10000 % 10] ∧
    renderNumber v useDecimal decimalIndex =
      renderNumber (Int.tmod v 10000) useDecimal decimalIndex ∧
    (renderNumber v useDecimal decimalIndex).isSome = true ∧
    renderNumber v useDecimal decimalIndex =
      some (renderTrace (overlay useDecimal decimalIndex 0 (encode (v % 10000 / 1000 % 10)))
        (overlay useDecimal decimalIndex 1 (encode (v % 10000 / 100 % 10)))
        (overlay useDecimal decimalIndex 2 (encode (v % 10000 / 10 % 10)))
        (overlay useDecimal decimalIndex 3 (encode (v % 10000 % 10)))) ∧
    (renderNumber v useDecimal decimalIndex).map committed =
      some [(overlay useDecimal decimalIndex 0 (encode (v % 10000 / 1000 % 10)), 0x01),
        (overlay useDecimal decimalIndex 1 (encode (v % 10000 / 100 % 10)), 0x02),
        (overlay useDecimal decimalIndex 2 (encode (v % 10000 / 10 % 10)), 0x04),
        (overlay useDecimal decimalIndex 3 (encode (v % 10000 % 10)), 0x08)] ∧
    (renderNumber v useDecimal decimalIndex).map
        (fun trace => (committed trace).map (fun f => glyphOf f.1)) =
      some [some (v % 10000 / 1000 % 10).toNat, some (v % 10000 / 100 % 10).toNat,
        some (v % 10000 / 10 % 10).toNat, some (v % 10000 % 10).toNat] ∧
    1000 * (v % 10000 / 1000 % 10) + 100 * (v % 10000 / 100 % 10) +
      10 * (v % 10000 / 10 % 10) + v % 10000 % 10 = v % 10000 := by
  have hv : 0 ≤ v := by omega
  have hw : 0 ≤ v % 10000 := by omega
  have hm : Int.tmod v 10000 = v % 10000 := tmod_of_nonneg v 10000 hv (by decide)
  have hd : digitsOf v = digitsOf (v % 10000) := by
    rw [digitsOf_nonneg v hv, digitsOf_nonneg (v % 10000) hw]
    have e0 : v / 1000 % 10 = v % 10000 / 1000 % 10 := by omega
    have e1 : v / 100 % 10 = v % 10000 / 100 % 10 := by omega
    have e2 : v / 10 % 10 = v % 10000 / 10 % 10 := by omega
    have e3 : v % 10 = v % 10000 % 10 := by omega
    rw [e0, e1, e2, e3]
  have hsame : renderNumber v useDecimal decimalIndex =
      renderNumber (v % 10000) useDecimal decimalIndex := by
    unfold renderNumber
    rw [hd]
  obtain ⟨hc, hg⟩ := renderNumber_shown (v % 10000) useDecimal decimalIndex hw
  refine ⟨hm, ?_, ?_, ?_, ?_, ?_, ?_, ?_, by omega⟩
  · rw [hm]; exact hd
  · rw [hd, digitsOf_nonneg (v % 10000) hw]
  · rw [hm]; exact hsame
  · rw [renderNumber_nonneg v useDecimal decimalIndex hv]
    rfl
  · rw [hsame]
    exact renderNumber_nonneg (v % 10000) useDecimal decimalIndex hw
  · rw [hsame]
    exact hc
  · rw [hsame]
    exact hg

/-- Witness for C10 at `v = 12345`: the trace equals that of `2345` and the four frames show
2, 3, 4, 5. -/
theorem C10_renderNumber_truncates_witness :
    (10000 : Int) ≤ 12345 ∧ (12345 : Int) ≤ 2147483647 ∧
    renderNumber 12345 true 1 = renderNumber (Int.tmod 12345 10000) true 1 ∧
    (renderNumber 12345 true 1).map
        (fun trace => (committed trace).map (fun f => glyphOf f.1)) =
      some [some 2, some 3, some 4, some 5] :=
  ⟨by decide, by decide,
    (C10_renderNumber_truncates 12345 true 1 (by decide) (by decide)).2.2.2.1,
    (C10_renderNumber_truncates 12345 true 1 (by decide) (by decide)).2.2.2.2.2.2.2.1⟩

/-! ## Theorems: main loop -/

/-- C4: clock mode end to end.  For every state whose time satisfies `0 ≤ minutes < 100`,
`0 ≤ seconds < 60`, when the mode button is not asserted the value passed to `renderNumber`
is `minutes*100 + seconds`, its four digits are `[minutes/10, minutes%10, seconds/10,
seconds%10]`, the frames latched are the plain table entries of these digits with enables
`0x01, 0x02, 0x04, 0x08`, each showing its digit, and every segment byte has bit 7 (decimal
point) set.  A whole loop iteration latches these frames for the time state at the moment of
rendering, which is the prior one when the reset button is not asserted.  For 2 min 5 s
the value is 205 and the digits are `[0,2,0,5]`. -/
theorem C4_clock_mode :
    (∀ (s : ProgState) (inp : Inputs), inp.btnVoltage = true → TimeInv s.time →
      displayValue s inp = some (s.time.elapsedMinutes * 100 + s.time.elapsedSeconds) ∧
      digitsOf (s.time.elapsedMinutes * 100 + s.time.elapsedSeconds) =
        [s.time.elapsedMinutes / 10, s.time.elapsedMinutes % 10,
         s.time.elapsedSeconds / 10, s.time.elapsedSeconds % 10] ∧
      (displayPhase s inp).map committed = some (clockFrames s.time) ∧
      (clockFrames s.time).map (fun f => glyphOf f.1) =
        [some (s.time.elapsedMinutes / 10).toNat, some (s.time.elapsedMinutes % 10).toNat,
         some (s.time.elapsedSeconds / 10).toNat, some (s.time.elapsedSeconds % 10).toNat] ∧
      (∀ f ∈ clockFrames s.time, dpBitSet f.1 = true)) ∧
    (∀ (s : ProgState) (inp : Inputs), inp.btnVoltage = true → TimeInv s.time →
      (loopIteration s inp).1.time = (if inp.btnReset then s.time else bootTime) ∧
      (loopIteration s inp).2.map committed = some (clockFrames (loopIteration s inp).1.time)) ∧
    (∀ (lo hi r : ℚ),
      displayValue ⟨⟨5, 2⟩, lo, hi⟩ ⟨true, r, true⟩ = some 205 ∧
      digitsOf 205 = [0, 2, 0, 5] ∧
      (loopIteration ⟨⟨5, 2⟩, lo, hi⟩ ⟨true, r, true⟩).2.map committed =
        some [(0xC0, 0x01), (0xA4, 0x02), (0xC0, 0x04), (0x92, 0x08)]) := by
  have general : ∀ (s : ProgState) (inp : Inputs), inp.btnVoltage = true → TimeInv s.time →
      (loopIteration s inp).1.time = (if inp.btnReset then s.time else bootTime) ∧
      (loopIteration s inp).2.map committed =
        some (clockFrames (loopIteration s inp).1.time) := by
    intro s inp hmode hinv
    have ht := loopIteration_time s inp
    have hinv2 : TimeInv (loopIteration s inp).1.time := by
      rw [ht]
      split
      · exact hinv
      · decide
    exact ⟨ht, by rw [loopIteration_committed,
      displayPhase_clock_committed _ inp hmode hinv2]⟩
  refine ⟨?_, general, ?_⟩
  · intro s inp hmode hinv
    have hv := displayTime_inv s.time hinv
    obtain ⟨h0, h1, h2, h3⟩ := hinv
    refine ⟨?_, ?_, displayPhase_clock_committed s inp hmode ⟨h0, h1, h2, h3⟩, ?_, ?_⟩
    · unfold displayValue
      rw [hmode, hv]
      rfl
    · rw [digitsOf_nonneg _ (by omega)]
      have e0 : (s.time.elapsedMinutes * 100 + s.time.elapsedSeconds) / 1000 % 10
          = s.time.elapsedMinutes / 10 := by omega
      have e1 : (s.time.elapsedMinutes * 100 + s.time.elapsedSeconds) / 100 % 10
          = s.time.elapsedMinutes % 10 := by omega
      have e2 : (s.time.elapsedMinutes * 100 + s.time.elapsedSeconds) / 10 % 10
          = s.time.elapsedSeconds / 10 := by omega
      have e3 : (s.time.elapsedMinutes * 100 + s.time.elapsedSeconds) % 10
          = s.time.elapsedSeconds % 10 := by omega
      rw [e0, e1, e2, e3]
    · simp only [clockFrames, List.map_cons, List.map_nil,
        (encode_facts _ (by omega : 0 ≤ s.time.elapsedMinutes / 10) (by omega)).1,
        (encode_facts _ (by omega : 0 ≤ s.time.elapsedMinutes % 10) (by omega)).1,
        (encode_facts _ (by omega : 0 ≤ s.time.elapsedSeconds / 10) (by omega)).1,
        (encode_facts _ (by omega : 0 ≤ s.time.elapsedSeconds % 10) (by omega)).1]
    · intro f hf
      simp only [clockFrames, List.mem_cons, List.mem_singleton, List.not_mem_nil,
        or_false] at hf
      rcases hf with rfl | rfl | rfl | rfl
      · exact (encode_facts _ (by omega) (by omega)).2.1
      · exact (encode_facts _ (by omega) (by omega)).2.1
      · exact (encode_facts _ (by omega) (by omega)).2.1
      · exact (encode_facts _ (by omega) (by omega)).2.1
  · intro lo hi r
    have hinv : TimeInv (⟨5, 2⟩ : TimeState) := by decide
    have hval : some (displayTime ⟨5, 2⟩) = some (205 : Int) := by decide
    have hfr : some (clockFrames ⟨5, 2⟩) =
        some [(0xC0, 0x01), (0xA4, 0x02), (0xC0, 0x04), (0x92, 0x08)] := by decide
    obtain ⟨ht, hc⟩ := general ⟨⟨5, 2⟩, lo, hi⟩ ⟨true, r, true⟩ rfl hinv
    refine ⟨hval, by decide, ?_⟩
    rw [hc, ht]
    exact hfr

/-- Witness for C4: the state 59 min 7 s with the reset button asserted renders `00:00`. -/
theorem C4_clock_mode_witness :
    (loopIteration ⟨⟨7, 59⟩, 1, 2⟩ ⟨false, 0, true⟩).1.time = bootTime ∧
    (loopIteration ⟨⟨7, 59⟩, 1, 2⟩ ⟨false, 0, true⟩).2.map committed =
      some (clockFrames (loopIteration ⟨⟨7, 59⟩, 1, 2⟩ ⟨false, 0, true⟩).1.time) :=
  C4_clock_mode.2.1 ⟨⟨7, 59⟩, 1, 2⟩ ⟨false, 0, true⟩ rfl (by decide)

/-- C7: voltmeter mode end to end.  Whenever the mode button is asserted and the scaled
integer `k` passed to `renderNumber` lies in `0..9999`, the frames latched by the loop
iteration show the decimal digits of `k` (thousands to units) with enables `0x01, 0x02, 0x04,
0x08`; the segment byte at index 1 is the table entry of its digit with exactly bit 7 cleared,
and the bytes at indices 0, 2, 3 are the plain table entries with bit 7 set.  For voltage
2.47 (the binary32 value nearest to 2.47, which the reading 3139373/4194304 produces) the
integer is 247, the digits are `[0,2,4,7]` and only the byte at index 1 has the decimal
point active. -/
theorem C7_voltmeter_mode :
    (∀ (s : ProgState) (inp : Inputs) (k : Int), inp.btnVoltage = false →
      voltageAsInt inp = some k → 0 ≤ k → k ≤ 9999 →
      displayValue s inp = some k ∧
      digitsOf k = [k / 1000 % 10, k / 100 % 10, k / 10 % 10, k % 10] ∧
      (loopIteration s inp).2.map committed = some (voltFrames k) ∧
      (voltFrames k).map (fun f => glyphOf f.1) =
        [some (k / 1000 % 10).toNat, some (k / 100 % 10).toNat, some (k / 10 % 10).toNat,
         some (k % 10).toNat] ∧
      (voltFrames k).map (fun f => dpBitSet f.1) = [true, false, true, true] ∧
      encode (k / 100 % 10) ^^^ clearDecimalBit (encode (k / 100 % 10)) = 0x80) ∧
    (∀ (s : ProgState) (reset : Bool),
      fl32 (3139373 / 4194304) = 3139373 / 4194304 ∧
      currentVoltage ⟨reset, 3139373 / 4194304, false⟩ = fl32 (247 / 100) ∧
      fl32 (247 / 100) = 10359931 / 4194304 ∧
      displayValue s ⟨reset, 3139373 / 4194304, false⟩ = some 247 ∧
      digitsOf 247 = [0, 2, 4, 7] ∧
      (loopIteration s ⟨reset, 3139373 / 4194304, false⟩).2.map committed =
        some [(0xC0, 0x01), (0x24, 0x02), (0x99, 0x04), (0xF8, 0x08)] ∧
      [0xC0, 0x24, 0x99, 0xF8].map dpBitSet = [true, false, true, true]) := by
  have general : ∀ (s : ProgState) (inp : Inputs) (k : Int), inp.btnVoltage = false →
      voltageAsInt inp = some k → 0 ≤ k →
      displayValue s inp = some k ∧
      (loopIteration s inp).2.map committed = some (voltFrames k) := by
    intro s inp k hmode hk h0
    constructor
    · unfold displayValue
      rw [hmode]
      exact hk
    · rw [loopIteration_committed, displayPhase_volt_committed _ inp k hmode hk h0]
  constructor
  · intro s inp k hmode hk h0 _
    obtain ⟨r0, r1, r2, r3⟩ := digit_range k
    obtain ⟨g0, b0, _, _, _⟩ := encode_facts _ r0.1 r0.2
    obtain ⟨_, _, g1, b1, x1⟩ := encode_facts _ r1.1 r1.2
    obtain ⟨g2, b2, _, _, _⟩ := encode_facts _ r2.1 r2.2
    obtain ⟨g3, b3, _, _, _⟩ := encode_facts _ r3.1 r3.2
    refine ⟨(general s inp k hmode hk h0).1, digitsOf_nonneg k h0,
      (general s inp k hmode hk h0).2, ?_, ?_, x1⟩
    · simp only [voltFrames, List.map_cons, List.map_nil, g0, g1, g2, g3]
    · simp only [voltFrames, List.map_cons, List.map_nil, b0, b1, b2, b3]
  · intro s reset
    have hr : fl32 (3139373 / 4194304) = 3139373 / 4194304 :=
      fl32_fixed _ (-1) 12557492 (by decide) (by rw [abs_of_pos] <;> norm_num)
        (by rw [abs_of_pos] <;> norm_num) (by norm_num)
    have hf : fl32 (247 / 100) = 10359931 / 4194304 := by
      rw [fl32_eq _ 1 10359931 (by decide) (by rw [abs_of_pos] <;> norm_num)
        (by rw [abs_of_pos] <;> norm_num) (by norm_num) (by norm_num)]
      norm_num
    have hv : currentVoltage ⟨reset, 3139373 / 4194304, false⟩ = 10359931 / 4194304 :=
      voltage_at_247
    have hk : voltageAsInt ⟨reset, 3139373 / 4194304, false⟩ = some 247 :=
      voltageAsInt_of_product _ 247 (by decide) (by decide)
        (by rw [hv, product_at_247]; norm_num)
    obtain ⟨hd, hc⟩ := general s ⟨reset, 3139373 / 4194304, false⟩ 247 rfl hk (by decide)
    refine ⟨hr, by rw [hv, hf], hf, hd, by decide, ?_, by decide⟩
    rw [hc]
    decide

/-- Witness for C7 at the reading 1/2 (voltage 1.65, scaled integer 165). -/
theorem C7_voltmeter_mode_witness :
    (loopIteration ProgState.boot ⟨true, 1 / 2, false⟩).2.map committed =
      some (voltFrames 165) :=
  (C7_voltmeter_mode.1 ProgState.boot ⟨true, 1 / 2, false⟩ 165 rfl
    (voltageAsInt_of_product _ 165 (by decide) (by decide)
      (by rw [show currentVoltage ⟨true, 1 / 2, false⟩ = 13841203 / 8388608
        from voltage_at_half, product_at_half]; norm_num))
    (by decide) (by decide)).2.2.1

/-- C8 as stated fails: for the reading 1/512 (a binary32 value; voltage 0.0064453,
scaled product 0.64453125) the loop passes 0 to `renderNumber`, while rounding the product
to the nearest integer gives 1. -/
theorem C8_round_counterexample :
    (0 : ℚ) ≤ 1 / 512 ∧ (1 / 512 : ℚ) ≤ 1 ∧ fl32 (1 / 512) = 1 / 512 ∧
    currentVoltage ⟨true, 1 / 512, false⟩ = 13841203 / 2147483648 ∧
    fl32 (currentVoltage ⟨true, 1 / 512, false⟩ * 100) = 165 / 256 ∧
    displayValue ProgState.boot ⟨true, 1 / 512, false⟩ = some 0 ∧
    round (fl32 (currentVoltage ⟨true, 1 / 512, false⟩ * 100)) = 1 ∧
    round (currentVoltage ⟨true, 1 / 512, false⟩ * 100) = 1 ∧
    displayValue ProgState.boot ⟨true, 1 / 512, false⟩ ≠
      some (round (fl32 (currentVoltage ⟨true, 1 / 512, false⟩ * 100))) := by
  have hr : fl32 (1 / 512) = 1 / 512 :=
    fl32_fixed _ (-9) 8388608 (by decide) (by rw [abs_of_pos] <;> norm_num)
      (by rw [abs_of_pos] <;> norm_num) (by norm_num)
  have hv : currentVoltage ⟨true, 1 / 512, false⟩ = 13841203 / 2147483648 :=
    voltage_at_512th
  have hp : fl32 (currentVoltage ⟨true, 1 / 512, false⟩ * 100) = 165 / 256 := by
    rw [hv, product_at_512th]
  have hd : displayValue ProgState.boot ⟨true, 1 / 512, false⟩ = some 0 := by
    show voltageAsInt ⟨true, 1 / 512, false⟩ = some 0
    apply voltageAsInt_eq _ 0 (by decide) (by decide)
    · rw [hp]; norm_num
    · rw [hp]; norm_num
  have hr1 : round (fl32 (currentVoltage ⟨true, 1 / 512, false⟩ * 100)) = 1 := by
    rw [hp, round_eq, Int.floor_eq_iff]
    constructor <;> norm_num
  have hr2 : round (currentVoltage ⟨true, 1 / 512, false⟩ * 100) = 1 := by
    rw [hv, round_eq, Int.floor_eq_iff]
    constructor <;> norm_num
  refine ⟨by norm_num, by norm_num, hr, hv, hp, hd, hr1, hr2, ?_⟩
  rw [hd, hr1]
  decide

/-- C8 (amended): for every reading `r` in `[0,1]`, with `voltage` the binary32 product
`r * 3.3f`, when the mode button is asserted the integer passed to `renderNumber` is the
binary32 product `voltage * 100` truncated toward zero, that is the floor `k` with
`k ≤ voltage * 100 < k + 1`; it lies in `0..330`, and it is never above the rounded product
and at most 1 below it. -/
theorem C8_truncates (s : ProgState) (inp : Inputs) (hmode : inp.btnVoltage = false)
    (h0 : 0 ≤ inp.analog) (h1 : inp.analog ≤ 1) :
    currentVoltage inp = fl32 (inp.analog * fl32 (33 / 10)) ∧
    displayValue s inp = some ⌊fl32 (currentVoltage inp * 100)⌋ ∧
    (⌊fl32 (currentVoltage inp * 100)⌋ : ℚ) ≤ fl32 (currentVoltage inp * 100) ∧
    fl32 (currentVoltage inp * 100) < (⌊fl32 (currentVoltage inp * 100)⌋ : ℚ) + 1 ∧
    0 ≤ ⌊fl32 (currentVoltage inp * 100)⌋ ∧ ⌊fl32 (currentVoltage inp * 100)⌋ ≤ 330 ∧
    ⌊fl32 (currentVoltage inp * 100)⌋ ≤ round (fl32 (currentVoltage inp * 100)) ∧
    round (fl32 (currentVoltage inp * 100)) ≤ ⌊fl32 (currentVoltage inp * 100)⌋ + 1 := by
  obtain ⟨hx0, hx1⟩ := voltageProduct_bounds inp h0 h1
  have hf0 : 0 ≤ ⌊fl32 (currentVoltage inp * 100)⌋ := Int.floor_nonneg.mpr hx0
  have hf1 : ⌊fl32 (currentVoltage inp * 100)⌋ ≤ 330 := by
    have : ⌊fl32 (currentVoltage inp * 100)⌋ ≤ ⌊(330 : ℚ)⌋ := Int.floor_mono hx1
    simpa using this
  refine ⟨rfl, ?_, Int.floor_le _, Int.lt_floor_add_one _, hf0, hf1, ?_, ?_⟩
  · unfold displayValue
    rw [hmode]
    exact voltageAsInt_eq inp _ hf0 (by omega) (Int.floor_le _) (Int.lt_floor_add_one _)
  · rw [round_eq]
    exact Int.floor_mono (by linarith)
  · rw [round_eq, ← Int.floor_add_one]
    exact Int.floor_mono (by linarith)

/-- Witness for C8 (amended) at the reading 3177503/4194304, where both binary32 roundings
go up: the voltage is exactly 2.5, the product exactly 250, and the value passed is 250
(the exact product `r * 3.3 * 100` would truncate to 249). -/
theorem C8_truncates_witness :
    displayValue ProgState.boot ⟨true, 3177503 / 4194304, false⟩ =
      some ⌊fl32 (currentVoltage ⟨true, 3177503 / 4194304, false⟩ * 100)⌋ ∧
    ⌊fl32 (currentVoltage ⟨true, 3177503 / 4194304, false⟩ * 100)⌋ = 250 ∧
    ⌊(3177503 / 4194304 : ℚ) * (33 / 10) * 100⌋ = 249 :=
  ⟨(C8_truncates ProgState.boot ⟨true, 3177503 / 4194304, false⟩ rfl (by norm_num)
      (by norm_num)).2.1,
    by
      rw [show currentVoltage ⟨true, 3177503 / 4194304, false⟩ = 5 / 2
        from voltage_at_double_rounding, product_at_double_rounding]
      exact Int.floor_eq_iff.mpr ⟨by norm_num, by norm_num⟩,
    Int.floor_eq_iff.mpr ⟨by norm_num, by norm_num⟩⟩

/-- C9: the extrema only widen.  For every state and sampled voltage `v`, the update step
yields `lowest' = min lowest v ≤ lowest` and `highest' = max highest v ≥ highest` and leaves
the time state alone; a whole loop iteration changes the extrema exactly so; and neither the
reset branch nor the ticker interrupt writes either field. -/
theorem C9_extrema_widen :
    (∀ (s : ProgState) (v : ℚ),
      (updateExtrema s v).lowestVoltage = min s.lowestVoltage v ∧
      (updateExtrema s v).highestVoltage = max s.highestVoltage v ∧
      (updateExtrema s v).lowestVoltage ≤ s.lowestVoltage ∧
      s.highestVoltage ≤ (updateExtrema s v).highestVoltage ∧
      (updateExtrema s v).time = s.time) ∧
    (∀ (s : ProgState) (inp : Inputs),
      (loopIteration s inp).1.lowestVoltage = min s.lowestVoltage (currentVoltage inp) ∧
      (loopIteration s inp).1.highestVoltage = max s.highestVoltage (currentVoltage inp) ∧
      (loopIteration s inp).1.lowestVoltage ≤ s.lowestVoltage ∧
      s.highestVoltage ≤ (loopIteration s inp).1.highestVoltage) ∧
    (∀ (s : ProgState) (inp : Inputs),
      (resetPhase s inp).1.lowestVoltage = s.lowestVoltage ∧
      (resetPhase s inp).1.highestVoltage = s.highestVoltage) ∧
    (∀ s : ProgState,
      (tickProg s).lowestVoltage = s.lowestVoltage ∧
      (tickProg s).highestVoltage = s.highestVoltage) := by
  refine ⟨?_, ?_, resetPhase_extrema, fun s => ⟨rfl, rfl⟩⟩
  · intro s v
    refine ⟨updateExtrema_lowest s v, updateExtrema_highest s v, ?_, ?_, updateExtrema_time s v⟩
    · rw [updateExtrema_lowest]; exact min_le_left _ _
    · rw [updateExtrema_highest]; exact le_max_left _ _
  · intro s inp
    obtain ⟨hl, hh⟩ := resetPhase_extrema s inp
    have e1 : (loopIteration s inp).1.lowestVoltage = min s.lowestVoltage (currentVoltage inp) := by
      show (updateExtrema _ _).lowestVoltage = _
      rw [updateExtrema_lowest, hl]
    have e2 : (loopIteration s inp).1.highestVoltage = max s.highestVoltage (currentVoltage inp) := by
      show (updateExtrema _ _).highestVoltage = _
      rw [updateExtrema_highest, hh]
    refine ⟨e1, e2, ?_, ?_⟩
    · rw [e1]; exact min_le_left _ _
    · rw [e2]; exact le_max_left _ _

/-! ## Theorems: extrema, reset, single tick -/

/-- C11: from the initial extrema (lowest = 3.3, highest = 0.0, as binary32 values), for
every first sample with normalized reading in `[0,1]` and voltage `v = reading * 3.3` (the
binary32 product), after the first update step both bounds hold the sample: `lowest = v`
and `highest = v`. -/
theorem C11_first_sample (inp : Inputs) (h0 : 0 ≤ inp.analog) (h1 : inp.analog ≤ 1) :
    ProgState.boot.lowestVoltage = fl32 (33 / 10) ∧ ProgState.boot.highestVoltage = 0 ∧
    currentVoltage inp = fl32 (inp.analog * fl32 (33 / 10)) ∧
    (updateExtrema ProgState.boot (currentVoltage inp)).lowestVoltage = currentVoltage inp ∧
    (updateExtrema ProgState.boot (currentVoltage inp)).highestVoltage = currentVoltage inp ∧
    (loopIteration ProgState.boot inp).1.lowestVoltage = currentVoltage inp ∧
    (loopIteration ProgState.boot inp).1.highestVoltage = currentVoltage inp := by
  obtain ⟨hv0, hv1⟩ := currentVoltage_bounds inp h0 h1
  have hlo : min ProgState.boot.lowestVoltage (currentVoltage inp) = currentVoltage inp :=
    min_eq_right hv1
  have hhi : max ProgState.boot.highestVoltage (currentVoltage inp) = currentVoltage inp :=
    max_eq_right hv0
  obtain ⟨e1, e2⟩ := loopIteration_extrema ProgState.boot inp
  refine ⟨rfl, rfl, rfl, ?_, ?_, ?_, ?_⟩
  · rw [updateExtrema_lowest, hlo]
  · rw [updateExtrema_highest, hhi]
  · rw [e1, hlo]
  · rw [e2, hhi]

/-- Witness for C11 at the full-scale reading 1, where the sample equals the initial lowest
bound. -/
theorem C11_first_sample_witness :
    (loopIteration ProgState.boot ⟨true, 1, true⟩).1.lowestVoltage =
      currentVoltage ⟨true, 1, true⟩ ∧
    (loopIteration ProgState.boot ⟨true, 1, true⟩).1.highestVoltage =
      currentVoltage ⟨true, 1, true⟩ :=
  (C11_first_sample ⟨true, 1, true⟩ (by norm_num) (by norm_num)).2.2.2.2.2

/-- C12: for every prior state, a loop iteration in which the reset button is asserted (pin
reads low) zeroes seconds and minutes, emits no display action before doing so (the reset
branch only sleeps 200 ms), and renders from the zeroed time state; an iteration in which
the button is not asserted leaves the time state as it was and adds no action. -/
theorem C12_reset_branch :
    (∀ (s : ProgState) (inp : Inputs), inp.btnReset = false →
      (resetPhase s inp).1.time = { elapsedSeconds := 0, elapsedMinutes := 0 } ∧
      (resetPhase s inp).2 = [.sleepMs 200] ∧
      (loopIteration s inp).1.time = { elapsedSeconds := 0, elapsedMinutes := 0 } ∧
      (loopIteration s inp).2 =
        (displayPhase (loopIteration s inp).1 inp).map (fun acts => [.sleepMs 200] ++ acts)) ∧
    (∀ (s : ProgState) (inp : Inputs), inp.btnReset = true →
      resetPhase s inp = (s, []) ∧
      (loopIteration s inp).1.time = s.time ∧
      (loopIteration s inp).2 = displayPhase (loopIteration s inp).1 inp) := by
  constructor
  · intro s inp h
    have hr : resetPhase s inp = ({ s with time := resetTime s.time }, [.sleepMs 200]) := by
      unfold resetPhase
      rw [h]
      rfl
    have h2 : (resetPhase s inp).2 = [.sleepMs 200] := by rw [hr]
    have ht : (loopIteration s inp).1.time = bootTime := by
      rw [loopIteration_time, h]
      rfl
    refine ⟨by rw [hr]; rfl, h2, ht, ?_⟩
    rw [loopIteration_trace, h2]
  · intro s inp h
    have hr : resetPhase s inp = (s, []) := by
      unfold resetPhase
      rw [h]
      rfl
    have h2 : (resetPhase s inp).2 = [] := by rw [hr]
    have ht : (loopIteration s inp).1.time = s.time := by
      rw [loopIteration_time, h]
      rfl
    refine ⟨hr, ht, ?_⟩
    rw [loopIteration_trace, h2]
    cases displayPhase (loopIteration s inp).1 inp <;> rfl

/-- Witness for C12: from 37 min 12 s with the reset button asserted the time is zeroed. -/
theorem C12_reset_branch_witness :
    (loopIteration ⟨⟨12, 37⟩, 1, 2⟩ ⟨false, 0, true⟩).1.time =
      { elapsedSeconds := 0, elapsedMinutes := 0 } :=
  (C12_reset_branch.1 ⟨⟨12, 37⟩, 1, 2⟩ ⟨false, 0, true⟩ rfl).2.2.1

/-- C13: for every non-negative `num`, each of the four digits `renderNumber` extracts lies
in `0..9`, every table lookup `segmentCodes[digits[i]]` is inside the ten-entry table, and
`renderNumber` is defined. -/
theorem C13_digits_in_table (num : Int) (useDecimal : Bool) (decimalIndex : Int)
    (h0 : 0 ≤ num) :
    (∀ d ∈ digitsOf num, 0 ≤ d ∧ d ≤ 9 ∧ (segmentAt d).isSome = true) ∧
    (renderNumber num useDecimal decimalIndex).isSome = true := by
  obtain ⟨r0, r1, r2, r3⟩ := digit_range num
  constructor
  · intro d hd
    rw [digitsOf_nonneg num h0] at hd
    simp only [List.mem_cons, List.mem_singleton, List.not_mem_nil, or_false] at hd
    have hr : 0 ≤ d ∧ d < 10 := by
      rcases hd with rfl | rfl | rfl | rfl
      · exact r0
      · exact r1
      · exact r2
      · exact r3
    refine ⟨hr.1, by omega, ?_⟩
    rw [segmentAt_digit d hr.1 hr.2]
    rfl
  · rw [renderNumber_nonneg num useDecimal decimalIndex h0]
    rfl

/-- Witness for C13 at `num = 2147483647`, the largest `int`. -/
theorem C13_digits_in_table_witness :
    (renderNumber 2147483647 false (-1)).isSome = true :=
  (C13_digits_in_table 2147483647 false (-1) (by decide)).2

/-- C14: for every time state with `0 ≤ seconds < 60` and `0 ≤ minutes < 100`, one call of
`incrementTime` yields `(seconds + 1, minutes)` when `seconds < 59` and
`(0, (minutes + 1) mod 100)` when `seconds = 59`; minutes changes only on the seconds wrap. -/
theorem C14_single_tick (t : TimeState) (h : TimeInv t) :
    (t.elapsedSeconds < 59 →
      incrementTime t =
        { elapsedSeconds := t.elapsedSeconds + 1, elapsedMinutes := t.elapsedMinutes }) ∧
    (t.elapsedSeconds = 59 →
      incrementTime t =
        { elapsedSeconds := 0, elapsedMinutes := (t.elapsedMinutes + 1) % 100 }) ∧
    ((incrementTime t).elapsedMinutes ≠ t.elapsedMinutes → t.elapsedSeconds = 59) := by
  obtain ⟨h0, h1, h2, h3⟩ := h
  refine ⟨fun hlt => incrementTime_step t h0 hlt, fun heq => incrementTime_wrap t heq h2 h3, ?_⟩
  intro hne
  by_contra hs
  have hlt : t.elapsedSeconds < 59 := by omega
  rw [incrementTime_step t h0 hlt] at hne
  exact hne rfl

/-- Witness for C14 at 59 s / 99 min: the tick wraps both fields. -/
theorem C14_single_tick_witness :
    incrementTime { elapsedSeconds := 59, elapsedMinutes := 99 } =
      { elapsedSeconds := 0, elapsedMinutes := (99 + 1) % 100 } :=
  (C14_single_tick { elapsedSeconds := 59, elapsedMinutes := 99 } (by decide)).2.1 rfl

/-- C15: for every finite sequence of loop iterations (with ticker interrupts anywhere
between them) from the boot extrema, the final lowest is the minimum of 3.3 and all sampled
voltages and the final highest is the maximum of 0.0 and all sampled voltages; for the
normalized readings `[1.0, 0.5, 3.0, 2.0]` this gives lowest = 0.5 * 3.3 and
highest = 3.0 * 3.3, each the binary32 product with the binary32 value of 3.3. -/
theorem C15_extrema_of_sequence :
    (∀ events : List ProgEvent,
      (runProg events ProgState.boot).lowestVoltage =
        (sampledVoltages events).foldl min (fl32 (33 / 10)) ∧
      (runProg events ProgState.boot).highestVoltage =
        (sampledVoltages events).foldl max 0 ∧
      (runProg events ProgState.boot).lowestVoltage ≤ fl32 (33 / 10) ∧
      0 ≤ (runProg events ProgState.boot).highestVoltage ∧
      (∀ v ∈ sampledVoltages events,
        (runProg events ProgState.boot).lowestVoltage ≤ v ∧
        v ≤ (runProg events ProgState.boot).highestVoltage)) ∧
    sampledVoltages (readings [1, 1 / 2, 3, 2]) =
      [fl32 (1 * fl32 (33 / 10)), fl32 (1 / 2 * fl32 (33 / 10)), fl32 (3 * fl32 (33 / 10)),
        fl32 (2 * fl32 (33 / 10))] ∧
    (runProg (readings [1, 1 / 2, 3, 2]) ProgState.boot).lowestVoltage =
      fl32 (1 / 2 * fl32 (33 / 10)) ∧
    (runProg (readings [1, 1 / 2, 3, 2]) ProgState.boot).highestVoltage =
      fl32 (3 * fl32 (33 / 10)) ∧
    fl32 (33 / 10) = 13841203 / 4194304 ∧
    fl32 (1 / 2 * fl32 (33 / 10)) = 13841203 / 8388608 ∧
    fl32 (3 * fl32 (33 / 10)) = 5190451 / 524288 := by
  have hsv : sampledVoltages (readings [1, 1 / 2, 3, 2]) =
      [fl32 (1 * fl32 (33 / 10)), fl32 (1 / 2 * fl32 (33 / 10)), fl32 (3 * fl32 (33 / 10)),
        fl32 (2 * fl32 (33 / 10))] := rfl
  have v1 : fl32 (1 * fl32 (33 / 10)) = 13841203 / 4194304 := voltage_at_one
  have v2 : fl32 (1 / 2 * fl32 (33 / 10)) = 13841203 / 8388608 := voltage_at_half
  have v3 : fl32 (3 * fl32 (33 / 10)) = 5190451 / 524288 := voltage_at_three
  have v4 : fl32 (2 * fl32 (33 / 10)) = 13841203 / 2097152 := voltage_at_two
  have vr : fl32 (33 / 10) = 13841203 / 4194304 := voltageRef_eq
  refine ⟨?_, hsv, ?_, ?_, vr, v2, v3⟩
  · intro events
    obtain ⟨e1, e2⟩ := runProg_extrema events ProgState.boot
    obtain ⟨a1, a2⟩ := foldl_min_le (sampledVoltages events) (fl32 (33 / 10))
    obtain ⟨b1, b2⟩ := le_foldl_max (sampledVoltages events) 0
    have e1' : (runProg events ProgState.boot).lowestVoltage =
        (sampledVoltages events).foldl min (fl32 (33 / 10)) := e1
    have e2' : (runProg events ProgState.boot).highestVoltage =
        (sampledVoltages events).foldl max 0 := e2
    refine ⟨e1', e2', by rw [e1']; exact a1, by rw [e2']; exact b1, ?_⟩
    intro v hv
    exact ⟨by rw [e1']; exact a2 v hv, by rw [e2']; exact b2 v hv⟩
  · rw [(runProg_extrema _ ProgState.boot).1, hsv]
    show List.foldl min (fl32 (33 / 10)) _ = _
    simp only [List.foldl]
    rw [v1, v2, v3, v4, vr]
    norm_num
  · rw [(runProg_extrema _ ProgState.boot).2, hsv]
    show List.foldl max (0 : ℚ) _ = _
    simp only [List.foldl]
    rw [v1, v2, v3, v4]
    norm_num

/-! ## Theorems: interleaving with the ticker interrupt -/

/-- C16 as stated fails: from 1 min 59 s, with one tick landing between the read of
`elapsedMinutes` and the read of `elapsedSeconds`, the value rendered is 100 (minutes from
before the increment, seconds from after the wrap), which is neither 159 (the state before
the tick) nor 200 (the state after it); with the operands read in the other order it is
259. -/
theorem C16_torn_read_counterexample :
    TimeInv { elapsedSeconds := 59, elapsedMinutes := 1 } ∧
    incrementTime { elapsedSeconds := 59, elapsedMinutes := 1 } =
      { elapsedSeconds := 0, elapsedMinutes := 2 } ∧
    displayTime { elapsedSeconds := 59, elapsedMinutes := 1 } = 159 ∧
    displayTime (incrementTime { elapsedSeconds := 59, elapsedMinutes := 1 }) = 200 ∧
    clockRead .minutesFirst .betweenReads { elapsedSeconds := 59, elapsedMinutes := 1 } = 100 ∧
    clockRead .secondsFirst .betweenReads { elapsedSeconds := 59, elapsedMinutes := 1 } = 259 ∧
    ¬ (∀ (order : ReadOrder) (pos : TickAt) (t : TimeState), TimeInv t →
        clockRead order pos t = displayTime t ∨
        clockRead order pos t = displayTime (incrementTime t)) := by
  refine ⟨by decide, by decide, by decide, by decide, by decide, by decide, ?_⟩
  intro h
  have h1 := h .minutesFirst .betweenReads { elapsedSeconds := 59, elapsedMinutes := 1 }
    (by decide)
  revert h1
  decide

/-- C16 (amended): in clock mode, for a time state within its invariant and one tick landing
before, between or after the two reads of line 119, each of the two values read is one the
field held just before or just after the tick, and the value rendered equals that of the
time state just before or just after the tick whenever the tick does not land between the
two reads at `seconds = 59`.  A tick between the reads at `seconds = 59` yields the torn
value: old minutes with seconds 0 when minutes is read first, new minutes with seconds 59
when seconds is read first. -/
theorem C16_read_consistency (order : ReadOrder) (pos : TickAt) (t : TimeState)
    (h : TimeInv t) :
    (∃ m sec : Int, clockRead order pos t = m * 100 + sec ∧
      (m = t.elapsedMinutes ∨ m = (incrementTime t).elapsedMinutes) ∧
      (sec = t.elapsedSeconds ∨ sec = (incrementTime t).elapsedSeconds)) ∧
    (pos ≠ .betweenReads ∨ t.elapsedSeconds < 59 →
      clockRead order pos t = displayTime t ∨
      clockRead order pos t = displayTime (incrementTime t)) ∧
    (t.elapsedSeconds = 59 →
      clockRead .minutesFirst .betweenReads t = t.elapsedMinutes * 100 + 0 ∧
      clockRead .secondsFirst .betweenReads t = (t.elapsedMinutes + 1) % 100 * 100 + 59 ∧
      clockRead order .betweenReads t ≠ displayTime t ∧
      clockRead order .betweenReads t ≠ displayTime (incrementTime t)) := by
  have hi := incrementTime_inv t h
  have dt := displayTime_inv t h
  have di := displayTime_inv (incrementTime t) hi
  have rtt := clockReadAt_inv t t h h
  have rii := clockReadAt_inv (incrementTime t) (incrementTime t) hi hi
  have rti := clockReadAt_inv t (incrementTime t) h hi
  obtain ⟨a0, a1, a2, a3⟩ := h
  refine ⟨?_, ?_, ?_⟩
  · cases order <;> cases pos
    · exact ⟨_, _, rii.1, Or.inr rfl, Or.inr rfl⟩
    · exact ⟨_, _, rti.1, Or.inl rfl, Or.inr rfl⟩
    · exact ⟨_, _, rtt.1, Or.inl rfl, Or.inl rfl⟩
    · exact ⟨_, _, rii.2, Or.inr rfl, Or.inr rfl⟩
    · exact ⟨_, _, rti.2, Or.inr rfl, Or.inl rfl⟩
    · exact ⟨_, _, rtt.2, Or.inl rfl, Or.inl rfl⟩
  · intro hcase
    cases pos with
    | beforeReads => exact Or.inr (clockReadAt_same order (incrementTime t))
    | afterReads => exact Or.inl (clockReadAt_same order t)
    | betweenReads =>
      have hlt : t.elapsedSeconds < 59 := by
        rcases hcase with hne | hlt
        · exact absurd rfl hne
        · exact hlt
      have hstep := incrementTime_step t a0 hlt
      cases order
      · right
        show clockReadAt .minutesFirst t (incrementTime t) = _
        rw [rti.1, di, hstep]
      · left
        show clockReadAt .secondsFirst t (incrementTime t) = _
        rw [rti.2, dt, hstep]
  · intro h59
    have hwrap := incrementTime_wrap t h59 a2 a3
    have e1 : clockRead .minutesFirst .betweenReads t = t.elapsedMinutes * 100 + 0 := by
      show clockReadAt .minutesFirst t (incrementTime t) = _
      rw [rti.1, hwrap]
    have e2 : clockRead .secondsFirst .betweenReads t =
        (t.elapsedMinutes + 1) % 100 * 100 + 59 := by
      show clockReadAt .secondsFirst t (incrementTime t) = _
      rw [rti.2, hwrap, h59]
    have di2 : displayTime (incrementTime t) = (t.elapsedMinutes + 1) % 100 * 100 + 0 := by
      rw [di, hwrap]
    refine ⟨e1, e2, ?_, ?_⟩
    · cases order
      · rw [e1, dt]; omega
      · rw [e2, dt]; omega
    · cases order
      · rw [e1, di2]; omega
      · rw [e2, di2]; omega

/-- Witness for C16 (amended) at 1 min 58 s with the tick between the reads: the value
rendered is that of the state before or after the tick. -/
theorem C16_read_consistency_witness :
    clockRead .minutesFirst .betweenReads { elapsedSeconds := 58, elapsedMinutes := 1 } =
        displayTime { elapsedSeconds := 58, elapsedMinutes := 1 } ∨
    clockRead .minutesFirst .betweenReads { elapsedSeconds := 58, elapsedMinutes := 1 } =
        displayTime (incrementTime { elapsedSeconds := 58, elapsedMinutes := 1 }) :=
  (C16_read_consistency .minutesFirst .betweenReads { elapsedSeconds := 58, elapsedMinutes := 1 }
    (by decide)).2.1 (Or.inr (by decide))

/-- C17 as stated fails: after a reset from 37 min 12 s, one tick firing during the debounce
delay leaves the time state at 1 s / 0 min, not 0 / 0. -/
theorem C17_window_counterexample :
    windowState { elapsedSeconds := 12, elapsedMinutes := 37 } 0 0 1 =
      { elapsedSeconds := 1, elapsedMinutes := 0 } ∧
    windowState { elapsedSeconds := 12, elapsedMinutes := 37 } 0 0 1 ≠
      { elapsedSeconds := 0, elapsedMinutes := 0 } := by
  decide

/-- C17 (amended): after a reset-button reset the time state is (0, 0) until a tick fires.
With `b` ticks between the two reset stores and `c` ticks so far inside the debounce delay,
`b + c < 60`, the state observed is `seconds = b + c`, `minutes = 0`, whatever the prior
state and the number of earlier ticks; so it is (0, 0) when no tick fired since the store to
seconds, and (0, 0) or (1, 0) when at most one did. -/
theorem C17_window_state (t : TimeState) (a b c : Nat) (h : b + c < 60) :
    windowState t a b c = { elapsedSeconds := ((b + c : Nat) : Int), elapsedMinutes := 0 } ∧
    (b + c = 0 → windowState t a b c = { elapsedSeconds := 0, elapsedMinutes := 0 }) ∧
    (b + c ≤ 1 →
      windowState t a b c = { elapsedSeconds := 0, elapsedMinutes := 0 } ∨
      windowState t a b c = { elapsedSeconds := 1, elapsedMinutes := 0 }) ∧
    (windowState t a b c = { elapsedSeconds := 0, elapsedMinutes := 0 } → b + c = 0) := by
  have hw := windowState_eq t a b c h
  refine ⟨hw, ?_, ?_, ?_⟩
  · intro h0
    rw [hw, h0]
    rfl
  · intro h1
    rcases Nat.le_one_iff_eq_zero_or_eq_one.mp h1 with h0 | h0
    · left
      rw [hw, h0]
      rfl
    · right
      rw [hw, h0]
      rfl
  · intro h0
    rw [hw, TimeState.mk.injEq] at h0
    exact_mod_cast h0.1

/-- Witness for C17 (amended): two earlier ticks, none between the stores, one in the
delay. -/
theorem C17_window_state_witness :
    windowState { elapsedSeconds := 12, elapsedMinutes := 37 } 2 0 1 =
      { elapsedSeconds := ((0 + 1 : Nat) : Int), elapsedMinutes := 0 } :=
  (C17_window_state { elapsedSeconds := 12, elapsedMinutes := 37 } 2 0 1 (by decide)).1

/-! ## Theorems: value ranges and the segment table -/

/-- C18: for every time state with `0 ≤ seconds < 60`, `0 ≤ minutes < 100` and every
normalized reading in `[0,1]`, the integer a loop iteration passes to `renderNumber` lies
in `[0, 9999]`: at most 9959 in clock mode and at most 330 in voltmeter mode.  It is not
negative, the four-digit decomposition loses nothing (`k % 10000 = k`), and the rendering
is defined.  The bound also holds for a clock value read with a tick landing between the
two reads. -/
theorem C18_rendered_value_in_range (s : ProgState) (inp : Inputs) (hinv : TimeInv s.time)
    (h0 : 0 ≤ inp.analog) (h1 : inp.analog ≤ 1) :
    (∃ k : Int, displayValue (loopIteration s inp).1 inp = some k ∧
      displayPhase (loopIteration s inp).1 inp =
        renderNumber k (!inp.btnVoltage) (if inp.btnVoltage then -1 else 1) ∧
      0 ≤ k ∧ k ≤ 9999 ∧ (inp.btnVoltage = true → k ≤ 9959) ∧
      (inp.btnVoltage = false → k ≤ 330) ∧ Int.tmod k 10000 = k) ∧
    (∃ k : Int, displayValue s inp = some k ∧ 0 ≤ k ∧ k ≤ 9999 ∧
      (inp.btnVoltage = true → k ≤ 9959) ∧ (inp.btnVoltage = false → k ≤ 330)) ∧
    ((loopIteration s inp).2).isSome = true ∧
    (∀ (order : ReadOrder) (pos : TickAt),
      0 ≤ clockRead order pos s.time ∧ clockRead order pos s.time ≤ 9959) := by
  have hinv2 : TimeInv (loopIteration s inp).1.time := by
    rw [loopIteration_time]
    split
    · exact hinv
    · decide
  obtain ⟨k, hk, hp, k0, k1, kc, kv⟩ := displayValue_range (loopIteration s inp).1 inp hinv2 h0 h1
  obtain ⟨k', hk', k0', k1', kc', kv'⟩ :
      ∃ k : Int, displayValue s inp = some k ∧ 0 ≤ k ∧ k ≤ 9999 ∧
        (inp.btnVoltage = true → k ≤ 9959) ∧ (inp.btnVoltage = false → k ≤ 330) := by
    obtain ⟨k, hk, _, r⟩ := displayValue_range s inp hinv h0 h1
    exact ⟨k, hk, r⟩
  refine ⟨⟨k, hk, hp, k0, k1, kc, kv, ?_⟩, ⟨k', hk', k0', k1', kc', kv'⟩, ?_, ?_⟩
  · rw [tmod_of_nonneg k 10000 k0 (by decide)]
    omega
  · rw [loopIteration_trace, hp, renderNumber_nonneg k _ _ k0]
    rfl
  · intro order pos
    have hi := incrementTime_inv s.time hinv
    obtain ⟨m, sec, e, hm, hs⟩ := (show ∃ m sec : Int, clockRead order pos s.time = m * 100 + sec ∧
        (0 ≤ m ∧ m < 100) ∧ (0 ≤ sec ∧ sec < 60) from by
      have rtt := clockReadAt_inv s.time s.time hinv hinv
      have rii := clockReadAt_inv (incrementTime s.time) (incrementTime s.time) hi hi
      have rti := clockReadAt_inv s.time (incrementTime s.time) hinv hi
      obtain ⟨a0, a1, a2, a3⟩ := hinv
      obtain ⟨b0, b1, b2, b3⟩ := hi
      cases order <;> cases pos
      · exact ⟨_, _, rii.1, ⟨b2, b3⟩, ⟨b0, b1⟩⟩
      · exact ⟨_, _, rti.1, ⟨a2, a3⟩, ⟨b0, b1⟩⟩
      · exact ⟨_, _, rtt.1, ⟨a2, a3⟩, ⟨a0, a1⟩⟩
      · exact ⟨_, _, rii.2, ⟨b2, b3⟩, ⟨b0, b1⟩⟩
      · exact ⟨_, _, rti.2, ⟨b2, b3⟩, ⟨a0, a1⟩⟩
      · exact ⟨_, _, rtt.2, ⟨a2, a3⟩, ⟨a0, a1⟩⟩)
    rw [e]
    omega

/-- Witness for C18 at 99 min 59 s in clock mode with full-scale reading. -/
theorem C18_rendered_value_in_range_witness :
    ((loopIteration ⟨⟨59, 99⟩, 1, 2⟩ ⟨true, 1, true⟩).2).isSome = true :=
  (C18_rendered_value_in_range ⟨⟨59, 99⟩, 1, 2⟩ ⟨true, 1, true⟩ (by decide) (by norm_num)
    (by norm_num)).2.2.1

/-- C19: negative display values break digit extraction.  For `num = -1`, truncating
division and remainder give the digits `[0, 0, 0, -1]`; the digit `-1` is outside `0..9`,
the lookup `segmentCodes[-1]` is outside the table, and `renderNumber` has no defined
result.  The same holds for every `num` in `-9999..-1`; it does not hold for every
negative value, since `-10000` yields the digits `[0, 0, 0, 0]`. -/
theorem C19_negative_values :
    digitsOf (-1) = [0, 0, 0, -1] ∧
    segmentAt (-1) = none ∧
    (∀ (useDecimal : Bool) (decimalIndex : Int),
      renderNumber (-1) useDecimal decimalIndex = none) ∧
    (∀ (num : Int) (useDecimal : Bool) (decimalIndex : Int), -9999 ≤ num → num ≤ -1 →
      (∃ d ∈ digitsOf num, d < 0 ∧ segmentAt d = none) ∧
      renderNumber num useDecimal decimalIndex = none) ∧
    digitsOf (-10000) = [0, 0, 0, 0] := by
  refine ⟨by decide, by decide, ?_, ?_, by decide⟩
  · intro ud di
    exact renderNumber_small_negative (-1) ud di (by decide) (by decide)
  · intro num ud di h0 h1
    obtain ⟨d, hd, hneg⟩ := exists_negative_digit num h0 h1
    exact ⟨⟨d, hd, hneg, segmentAt_neg d hneg⟩, renderNumber_small_negative num ud di h0 h1⟩

/-- Witness for C19 at `num = -10`, where the tens digit is `-1`. -/
theorem C19_negative_values_witness :
    renderNumber (-10) true 1 = none :=
  (C19_negative_values.2.2.2.1 (-10) true 1 (by decide) (by decide)).2

/-- C20: for every digit `d` in `0..9`, bit 7 of `segmentCodes[d]` is set (decimal point
off); distinct digits have distinct table entries, also after masking with `0x7F`; the
decimal-point overlay of `renderNumber` equals masking with `0x7F` on table entries, and it
never changes which digit glyph a committed byte shows. -/
theorem C20_table_unambiguous :
    (∀ d : Fin 10, segmentAt (d.val : Int) = some (encode (d.val : Int)) ∧
      dpBitSet (encode (d.val : Int)) = true) ∧
    (∀ d1 d2 : Fin 10, d1 ≠ d2 →
      encode (d1.val : Int) ≠ encode (d2.val : Int) ∧
      encode (d1.val : Int) &&& 0x7F ≠ encode (d2.val : Int) &&& 0x7F) ∧
    (∀ d : Fin 10,
      clearDecimalBit (encode (d.val : Int)) = encode (d.val : Int) &&& 0x7F ∧
      glyphOf (encode (d.val : Int)) = some d.val ∧
      glyphOf (clearDecimalBit (encode (d.val : Int))) = some d.val) ∧
    (∀ (useDecimal : Bool) (decimalIndex : Int) (i : Nat) (d : Fin 10),
      glyphOf (overlay useDecimal decimalIndex i (encode (d.val : Int))) =
        glyphOf (encode (d.val : Int))) := by
  refine ⟨by decide, by decide, by decide, ?_⟩
  intro ud di i d
  have h0 : (0 : Int) ≤ (d.val : Int) := Int.ofNat_nonneg _
  have h1 : (d.val : Int) < 10 := by exact_mod_cast d.isLt
  rw [glyphOf_overlay ud di i _ h0 h1, (encode_facts _ h0 h1).1]

/-- Witness for C20 at the digits 3 and 8, whose glyphs differ in two segments. -/
theorem C20_table_unambiguous_witness :
    encode ((3 : Fin 10).val : Int) ≠ encode ((8 : Fin 10).val : Int) ∧
    encode ((3 : Fin 10).val : Int) &&& 0x7F ≠ encode ((8 : Fin 10).val : Int) &&& 0x7F :=
  C20_table_unambiguous.2.1 3 8 (by decide)

end Firmware
